import Mathlib

/-!
# FluentSchema: a shallow embedding of `src/FluentSchema.js`

The builder of `src/FluentSchema.js` is a closure over an immutable `schema`
object; every method returns a new builder over a new object, or throws an
`Error`.  Here a builder is identified with the document it closes over, a
method is a function from documents to documents, and a `throw` is the
`Except.error` case.

JavaScript objects are association lists in insertion order, JavaScript values
are the terms of `JsVal`.  Floating point is not modelled: a Number is either
integer valued (`JsVal.num`) or not (`JsVal.nonInteger`), which is all that
`Number.isInteger` and truthiness observe.
-/

namespace FluentSchema

/-! ## JavaScript values and objects -/

/-- The JavaScript values that attribute bags and documents hold. -/
inductive JsVal where
  | undefined
  | null
  | bool (b : Bool)
  /-- A Number whose value is the integer `n`. -/
  | num (n : Int)
  /-- A Number that is not an integer (a fraction, an infinity, or `NaN`). -/
  | nonInteger (isNaN : Bool)
  | str (s : String)
  | arr (items : List JsVal)
  | obj (fields : List (String × JsVal))
  deriving Inhabited, Repr

/-- An object: its own enumerable keys, in insertion order. -/
abbrev Obj := List (String × JsVal)

namespace JsVal

/-- JavaScript truthiness, as tested by `v ? a : b` and `!v`. -/
def truthy : JsVal → Bool
  | undefined => false
  | null => false
  | bool b => b
  | num n => n != 0
  | nonInteger isNaN => !isNaN
  | str s => s != ""
  | arr _ => true
  | obj _ => true

/-- The test `Array.isArray(v)`. -/
def isArray : JsVal → Bool
  | arr _ => true
  | _ => false

/-- The test `Number.isInteger(v)`. -/
def isInteger : JsVal → Bool
  | num _ => true
  | _ => false

/-- The test `v === s` for a string primitive `s`. -/
def strictEqStr : JsVal → String → Bool
  | str t, s => t == s
  | _, _ => false

end JsVal

namespace Obj

/-- Property read `o[k]`: `undefined` when the key is absent. -/
def get (o : Obj) (k : String) : JsVal :=
  (List.lookup k o).getD JsVal.undefined

/-- The test `k in o` for own keys. -/
def has (o : Obj) (k : String) : Bool :=
  (List.lookup k o).isSome

/-- The object `{ ...o, [k]: v }`: an existing key keeps its place and takes
the new value, a new key goes last. -/
def set : Obj → String → JsVal → Obj
  | [], k, v => [(k, v)]
  | (k', v') :: rest, k, v => if k' == k then (k, v) :: rest else (k', v') :: set rest k v

/-- The rest object `{ k, ...rest } = o`: every key but `k`. -/
def erase (o : Obj) (k : String) : Obj :=
  o.filter (fun kv => !(kv.1 == k))

/-- The number that a string of decimal digits writes after `acc`; `none` for
any other character. -/
def digitsValue : List Char → Nat → Option Nat
  | [], acc => some acc
  | c :: cs, acc => if c.isDigit then digitsValue cs (10 * acc + (c.toNat - 48)) else none

/-- The array index that the key `k` writes, if it writes one: `k` is the
canonical decimal numeral (digits only, no leading zero) of an integer below
`2^32 - 1`.  JavaScript lists such keys before all others. -/
def arrayIndex? (k : String) : Option Nat :=
  match k.data with
  | [] => none
  | c :: cs =>
      if c == '0' && !cs.isEmpty then none
      else
        match digitsValue (c :: cs) 0 with
        | some n => if n < 4294967295 then some n else none
        | none => none

/-- The key with index `n` put at its numeric place among indexed keys. -/
def insertIndexed (n : Nat) (kv : String × JsVal) :
    List (Nat × String × JsVal) → List (Nat × String × JsVal)
  | [] => [(n, kv)]
  | (m, kv') :: rest =>
      if n < m then (n, kv) :: (m, kv') :: rest else (m, kv') :: insertIndexed n kv rest

/-- The keys of `o` that are array indices, in ascending numeric order. -/
def indexed (o : Obj) : List (Nat × String × JsVal) :=
  o.foldl (fun acc kv =>
    match arrayIndex? kv.1 with
    | some n => insertIndexed n kv acc
    | none => acc) []

/-- The pairs `Object.entries(o)` enumerates, in the order of the own keys of
a JavaScript object: first the keys that are array indices, in ascending
numeric order, then the other keys in insertion order. -/
def entries (o : Obj) : Obj :=
  (indexed o).map Prod.snd ++ o.filter (fun kv => (arrayIndex? kv.1).isNone)

/-- The values `Object.entries(o)` enumerates, in its order. -/
def values (o : Obj) : List JsVal :=
  (entries o).map Prod.snd

/-- The object `{ ...o, ...o' }`: the keys of `o'` are copied in the order
`entries` lists them. -/
def assign (o o' : Obj) : Obj :=
  (entries o').foldl (fun acc kv => set acc kv.1 kv.2) o

end Obj

/-! ## Documents -/

/-- One element of `schema.properties` or `schema.definitions`: the object
`{ name, ...attrs }`. -/
structure Entry where
  name : String
  attrs : Obj
  deriving Inhabited, Repr

/-- Property read `entry[k]` for a key other than `name`. -/
def Entry.get (e : Entry) (k : String) : JsVal :=
  e.attrs.get k

/-- The `schema` object a builder closes over.  `fields` holds the top-level
keys other than the three arrays (`$schema`, `type`, and what the metadata
operations add), in insertion order; `requiredAt` keeps the place of
`required` among them. -/
structure Document where
  definitions : List Entry
  properties : List Entry
  required : List String
  fields : Obj
  /-- The place of the key `required` in the schema object: the number of keys
  of `fields` that come before it. -/
  requiredAt : Nat
  deriving Inhabited, Repr

/-- The constant `initialState`. -/
def initialState : Document where
  definitions := []
  properties := []
  required := []
  fields := [("$schema", .str "http://json-schema.org/draft-07/schema#"), ("type", .str "object")]
  requiredAt := 2

/-- Every `throw` of the file, and the runtime `TypeError` of reading a
property of `undefined`. -/
inductive BuilderError where
  /-- `setMeta`: the option `key` belongs to `type`, the property `name` has another type. -/
  | optionNotAccepted (name type key : String)
  /-- `examples`: the argument is not an array. -/
  | examplesNotArray
  /-- `minLength`, `maxLength`, `minimum`: the argument is not an integer. -/
  | notInteger (option : String)
  /-- `not`: there is no property. -/
  | notWithoutProp
  /-- The stubs `if`, `then`, `else`. -/
  | notImplemented (keyword : String)
  /-- `anyOf`, `required`: `currentProp` is `undefined` and is destructured or read. -/
  | typeError
  deriving Inhabited, Repr, DecidableEq

/-- The `message` of the thrown `Error` (the engine's text for a `TypeError`
is not modelled). -/
def BuilderError.message : BuilderError → String
  | optionNotAccepted name type key =>
      "\x27" ++ name ++ "\x27 as \x27" ++ type ++ "\x27 doesn\x27t accept \x27" ++ key ++ "\x27 option"
  | examplesNotArray => "\x27examples\x27 must be an array e.g. [\x271\x27, \x27one\x27, \x27foo\x27]"
  | notInteger option => "\x27" ++ option ++ "\x27 must be an Integer"
  | notWithoutProp => "\x27not\x27 can be applied only to a prop"
  | notImplemented keyword => "\x27" ++ keyword ++ "\x27 isn\x27t implemented yet"
  | typeError => "TypeError"

/-- The error categories of the specification. -/
inductive ErrorKind where
  | invalidArgument
  | typeMismatch
  | preconditionError
  | notImplemented
  | runtime
  deriving Inhabited, Repr, DecidableEq

/-- Modelled from the spec: the error taxonomy of section 7, which the source
does not encode (every failure is a plain `Error`).  InvalidArgument is a wrong
argument shape, TypeMismatch a type-scoped option on a property of another
type, PreconditionError a combinator without a last property, NotImplemented
the stubs. -/
def BuilderError.kind : BuilderError → ErrorKind
  | optionNotAccepted _ _ _ => .typeMismatch
  | examplesNotArray => .invalidArgument
  | notInteger _ => .invalidArgument
  | notWithoutProp => .preconditionError
  | notImplemented _ => .notImplemented
  | typeError => .runtime

/-! ## The helpers of `./utils` -/

/-- Modelled from the spec: `utils.last`, which is not under `src/`.  "The
most recently appended entry" of the sequence, `undefined` (here `none`) when
there is none; the sequence itself is left as it is. -/
def last (array : List Entry) : Option Entry :=
  array.getLast?

/-- Modelled from the spec: `utils.hasCombiningKeywords`, which is not under
`src/`.  The attributes contain one of the structural combinators
`anyOf`/`allOf`/`oneOf`/`not` or nested `properties`. -/
def hasCombiningKeywords (attributes : Obj) : Bool :=
  attributes.has "anyOf" || attributes.has "allOf" || attributes.has "oneOf" ||
    attributes.has "not" || attributes.has "properties"

/-- Modelled from the spec: `utils.flat`, which is not under `src/`.  The
sequence of entries becomes the mapping from each name to the rest of its
entry; a later entry of the same name takes the place of the earlier one. -/
def flat (array : List Entry) : Obj :=
  array.foldl (fun memo prop => memo.set prop.name (.obj prop.attrs)) []

/-- The second argument of `prop`: a plain attributes bag, or a builder
(`utils.isFluentSchema` tells them apart; here the constructor does). -/
inductive PropArg where
  | plain (attributes : Obj)
  | builder (schema : Document)
  deriving Inhabited, Repr

/-! ## The builder -/

/-- The method `valueOf`: `{ definitions: flat(definitions), ...rest,
properties: flat(properties) }`, where `rest` is the schema without its
`properties` and `definitions`: the keys of `fields`, with `required` at its
place among them. -/
def Document.valueOf (schema : Document) : Obj :=
  let rest := schema.fields.take schema.requiredAt ++
    [("required", JsVal.arr (schema.required.map JsVal.str))] ++
    schema.fields.drop schema.requiredAt
  (Obj.assign [("definitions", JsVal.obj (flat schema.definitions))] rest).set "properties"
    (JsVal.obj (flat schema.properties))

/-- The term `v ? { k: v } : undefined` handed to `Object.assign`. -/
def pick (k : String) (v : JsVal) : Obj :=
  if v.truthy then [(k, v)] else []

/-- The binding `type = hasCombiningKeywords(attributes) ? undefined : 'string'`
of the destructuring in `prop`: the default applies when `attributes.type` is
`undefined`. -/
def defaultedType (attributes : Obj) : JsVal :=
  match attributes.get "type" with
  | .undefined => if hasCombiningKeywords attributes then JsVal.undefined else JsVal.str "string"
  | t => t

/-- The binding `$id = "#" + target + "/" + name` of the destructuring in
`prop`: the default applies when `attributes.$id` is `undefined`. -/
def defaultedId (target : String) (name : String) (attributes : Obj) : JsVal :=
  match attributes.get "$id" with
  | .undefined => JsVal.str ("#" ++ target ++ "/" ++ name)
  | v => v

/-- The entry `prop` appends to `schema[target]` for the destructured
`attributes` (lines 59-117). -/
def buildEntry (target : String) (name : String) (attributes : Obj) : Entry :=
  let type := defaultedType attributes
  let id := defaultedId target name attributes
  let ref := attributes.get "$ref"
  if ref.truthy then
    { name := name, attrs := [("$ref", ref)] }
  else
    { name := name
      attrs :=
        pick "type" type ++
        pick "default" (attributes.get "defaults") ++
        pick "title" (attributes.get "title") ++
        pick "$id" id ++
        pick "description" (attributes.get "description") ++
        pick "properties" (attributes.get "properties") ++
        pick "required" (attributes.get "required") ++
        pick "anyOf" (attributes.get "anyOf") ++
        pick "oneOf" (attributes.get "oneOf") ++
        pick "allOf" (attributes.get "allOf") ++
        pick "not" (attributes.get "not") ++
        pick "minLength" (attributes.get "minLength") ++
        pick "maxLength" (attributes.get "maxLength") ++
        pick "pattern" (attributes.get "pattern") ++
        pick "format" (attributes.get "format") ++
        pick "minimum" (attributes.get "minimum") ++
        pick "maximum" (attributes.get "maximum") ++
        pick "multipleOf" (attributes.get "multipleOf") ++
        pick "exclusiveMaximum" (attributes.get "exclusiveMaximum") ++
        pick "exclusiveMinimum" (attributes.get "exclusiveMinimum") }

/-- The test `props.def` of `prop`: a builder has no such key. -/
def PropArg.isDef : PropArg → Bool
  | .plain attributes => (attributes.get "def").truthy
  | .builder _ => false

/-- The binding `attributes = isFluentSchema(props) ? props.valueOf() : props`. -/
def PropArg.attributes : PropArg → Obj
  | .plain attributes => attributes
  | .builder schema => schema.valueOf

/-- The method `prop(name, props)`. -/
def Document.prop (schema : Document) (name : String) (props : PropArg := .plain []) : Document :=
  if props.isDef then
    { schema with definitions := schema.definitions ++ [buildEntry "definitions" name props.attributes] }
  else
    { schema with properties := schema.properties ++ [buildEntry "properties" name props.attributes] }

/-- The function `setMeta(schema, [key, value, type = 'string'])`. -/
def setMeta (schema : Document) (key : String) (value : JsVal) (type : String := "string") :
    Except BuilderError Document :=
  match last schema.properties with
  | some currentProp =>
      if !(currentProp.get "type").strictEqStr type then
        .error (.optionNotAccepted currentProp.name type key)
      else
        .ok (schema.prop currentProp.name (.plain (currentProp.attrs.set key value)))
  | none => .ok { schema with fields := schema.fields.set key value }

/-- The method `id($id)`. -/
def Document.id (schema : Document) (id : JsVal) : Except BuilderError Document :=
  setMeta schema "$id" id

/-- The method `title(title)`. -/
def Document.title (schema : Document) (title : JsVal) : Except BuilderError Document :=
  setMeta schema "title" title

/-- The method `description(description)`. -/
def Document.description (schema : Document) (description : JsVal) : Except BuilderError Document :=
  setMeta schema "description" description

/-- The method `examples(examples)`. -/
def Document.examples (schema : Document) (examples : JsVal) : Except BuilderError Document :=
  if !examples.isArray then .error .examplesNotArray
  else setMeta schema "examples" examples

/-- The method `ref($ref)`. -/
def Document.ref (schema : Document) (ref : JsVal) : Except BuilderError Document :=
  match last schema.properties with
  | some currentProp => .ok (schema.prop currentProp.name (.plain [("$ref", ref)]))
  | none => .ok { schema with fields := schema.fields.set "$ref" ref }

/-- The method `definition(name, props)`, for a plain attributes bag. -/
def Document.definition (schema : Document) (name : String) (props : Obj := []) : Document :=
  schema.prop name (.plain (props.set "def" (.bool true)))

/-- The method `not()`. -/
def Document.not (schema : Document) : Except BuilderError Document :=
  match schema.properties.reverse with
  | [] => .error .notWithoutProp
  | currentProp :: properties =>
      let attrs := (currentProp.attrs.erase "type").set "not" (.obj [])
      .ok (Document.prop { schema with properties := properties } currentProp.name (.plain attrs))

/-- The method `anyOf(attributes)`, for a builder `attributes`. -/
def Document.anyOf (schema : Document) (attributes : Document) : Except BuilderError Document :=
  match last schema.properties with
  | none => .error .typeError
  | some currentProp =>
      let props := (currentProp.attrs.erase "not").erase "type"
      let values :=
        match attributes.valueOf.get "properties" with
        | .obj properties => Obj.values properties
        | _ => []
      let attr :=
        if (currentProp.get "not").truthy then props.set "not" (.obj [("anyOf", .arr values)])
        else props.set "anyOf" (.arr values)
      .ok (schema.prop currentProp.name (.plain attr))

/-- The method `required()`. -/
def Document.required_ (schema : Document) : Except BuilderError Document :=
  match last schema.properties with
  | none => .error .typeError
  | some currentProp => .ok { schema with required := schema.required ++ [currentProp.name] }

/-- The method `as(type)`. -/
def Document.as (schema : Document) (type : String) : Except BuilderError Document :=
  setMeta schema "type" (.str type)

/-- The method `asString()`. -/
def Document.asString (schema : Document) : Except BuilderError Document := schema.as "string"

/-- The method `asNumber()`. -/
def Document.asNumber (schema : Document) : Except BuilderError Document := schema.as "number"

/-- The method `asBoolean()`. -/
def Document.asBoolean (schema : Document) : Except BuilderError Document := schema.as "boolean"

/-- The method `asInteger()`. -/
def Document.asInteger (schema : Document) : Except BuilderError Document := schema.as "integer"

/-- The method `asArray()`. -/
def Document.asArray (schema : Document) : Except BuilderError Document := schema.as "array"

/-- The method `asObject()`. -/
def Document.asObject (schema : Document) : Except BuilderError Document := schema.as "object"

/-- The method `asNull()`. -/
def Document.asNull (schema : Document) : Except BuilderError Document := schema.as "null"

/-- The method `minLength(min)`. -/
def Document.minLength (schema : Document) (min : JsVal) : Except BuilderError Document :=
  if !min.isInteger then .error (.notInteger "minLength")
  else setMeta schema "minLength" min "string"

/-- The method `maxLength(max)`. -/
def Document.maxLength (schema : Document) (max : JsVal) : Except BuilderError Document :=
  if !max.isInteger then .error (.notInteger "maxLength")
  else setMeta schema "maxLength" max "string"

/-- The method `minimum(min)`. -/
def Document.minimum (schema : Document) (min : JsVal) : Except BuilderError Document :=
  if !min.isInteger then .error (.notInteger "minimum")
  else setMeta schema "minimum" min "number"

/-- The method `if()`: it has no parameter, and what a caller passes is ignored. -/
def Document.if_ (_schema : Document) (_arguments : List JsVal) : Except BuilderError Document :=
  .error (.notImplemented "if")

/-- The method `then()`: it has no parameter, and what a caller passes is ignored. -/
def Document.then_ (_schema : Document) (_arguments : List JsVal) : Except BuilderError Document :=
  .error (.notImplemented "then")

/-- The method `else()`: it has no parameter, and what a caller passes is ignored. -/
def Document.else_ (_schema : Document) (_arguments : List JsVal) : Except BuilderError Document :=
  .error (.notImplemented "else")

/-! ## Chains of calls -/

/-- One call of a method of the builder, with its arguments. -/
inductive Op where
  | id (v : JsVal)
  | title (v : JsVal)
  | description (v : JsVal)
  | examples (v : JsVal)
  | ref (v : JsVal)
  | definition (name : String) (props : Obj)
  | prop (name : String) (props : PropArg)
  | not
  | anyOf (attributes : Document)
  | required
  | asString
  | minLength (v : JsVal)
  | maxLength (v : JsVal)
  | asNumber
  | minimum (v : JsVal)
  | asBoolean
  | asInteger
  | asArray
  | asObject
  | asNull
  | as (type : String)
  | if_ (arguments : List JsVal)
  | then_ (arguments : List JsVal)
  | else_ (arguments : List JsVal)
  deriving Inhabited, Repr

/-- The call `FluentSchema(schema).op(...)`. -/
def Document.call (schema : Document) : Op → Except BuilderError Document
  | .id v => schema.id v
  | .title v => schema.title v
  | .description v => schema.description v
  | .examples v => schema.examples v
  | .ref v => schema.ref v
  | .definition name props => .ok (schema.definition name props)
  | .prop name props => .ok (schema.prop name props)
  | .not => schema.not
  | .anyOf attributes => schema.anyOf attributes
  | .required => schema.required_
  | .asString => schema.asString
  | .minLength v => schema.minLength v
  | .maxLength v => schema.maxLength v
  | .asNumber => schema.asNumber
  | .minimum v => schema.minimum v
  | .asBoolean => schema.asBoolean
  | .asInteger => schema.asInteger
  | .asArray => schema.asArray
  | .asObject => schema.asObject
  | .asNull => schema.asNull
  | .as type => schema.as type
  | .if_ arguments => schema.if_ arguments
  | .then_ arguments => schema.then_ arguments
  | .else_ arguments => schema.else_ arguments

/-- The chain `FluentSchema(schema).op1(...).op2(...)...`: it stops at the
first call that throws. -/
def Document.chain (schema : Document) : List Op → Except BuilderError Document
  | [] => .ok schema
  | op :: ops =>
      match schema.call op with
      | .ok next => next.chain ops
      | .error e => .error e

/-- The documents that a chain of successful calls builds from `initialState`. -/
inductive Reachable : Document → Prop where
  | initial : Reachable initialState
  | call {d d' : Document} (op : Op) : Reachable d → d.call op = .ok d' → Reachable d'

/-! ## Predicates used by the statements -/

/-- A truthy value is kept, any other is left out (read back as `undefined`). -/
def kept (v : JsVal) : JsVal := if v.truthy then v else JsVal.undefined

/-- The result `r` is a document whose last property is named `name` and holds
`v` under `key`. -/
def LastHolds (r : Except BuilderError Document) (name key : String) (v : JsVal) : Prop :=
  ∃ d q, r = .ok d ∧ last d.properties = some q ∧ q.name = name ∧ q.get key = v

/-- The result `r` is the document `d` with the one top-level key `key` set
to `v`: the three sequences and every other top-level key are those of `d`. -/
def SetsOnlyField (d : Document) (r : Except BuilderError Document) (key : String) (v : JsVal) :
    Prop :=
  ∃ d', r = .ok d' ∧ d'.definitions = d.definitions ∧ d'.properties = d.properties ∧
    d'.required = d.required ∧ d'.fields.get key = v ∧
    ∀ k, k ≠ key → d'.fields.get k = d.fields.get k

/-- The document `d'` is `d` with the one entry `e` appended, to `properties`
or to `definitions`. -/
def Appends (d d' : Document) (e : Entry) : Prop :=
  d' = { d with properties := d.properties ++ [e] } ∨
    d' = { d with definitions := d.definitions ++ [e] }

/-- The keys that make `prop` leave an entry typeless. -/
def combiningKeywords : List String := ["anyOf", "allOf", "oneOf", "not", "properties"]

/-- The text `message` contains the text `word`. -/
def mentions (message word : String) : Bool :=
  decide (word.data <:+: message.data)

/-- When the call succeeds, its result `r` is the document `d` with one more
entry, named like `p`, after every entry of `d.properties`; nothing else
differs. -/
def AppendsRefined (d : Document) (p : Entry) (r : Except BuilderError Document) : Prop :=
  ∀ s, r = .ok s → ∃ q, q.name = p.name ∧ s = { d with properties := d.properties ++ [q] }

/-- The entry `e` is one that `prop` builds. -/
def Built (e : Entry) : Prop :=
  ∃ target name attributes, e = buildEntry target name attributes

/-- Every entry of the document is one that `prop` builds, and every name in
`required` is the name of an entry of `properties`. -/
def WellBuilt (d : Document) : Prop :=
  (∀ e ∈ d.properties, Built e) ∧ (∀ e ∈ d.definitions, Built e) ∧
    ∀ n ∈ d.required, ∃ e ∈ d.properties, e.name = n

/-- The keys that `prop` reads from the attributes and writes to the entry
under the same name, without a default. -/
def carriedKeys : List String :=
  ["title", "description", "properties", "required", "anyOf", "oneOf", "allOf", "not",
   "minLength", "maxLength", "pattern", "format", "minimum", "maximum", "multipleOf",
   "exclusiveMaximum", "exclusiveMinimum"]

/-- The result `r` is a document whose last property is named `name` and holds
`v` under `key`, unless the type guard of `setMeta` has thrown. -/
def LastHoldsUnlessGuarded (r : Except BuilderError Document) (name key : String) (v : JsVal) :
    Prop :=
  LastHolds r name key v ∨ r = .error (.optionNotAccepted name "string" key)

/-! ## Lemmas on values and objects -/

theorem JsVal.strictEqStr_eq_true_iff (v : JsVal) (s : String) :
    v.strictEqStr s = true ↔ v = JsVal.str s := by
  cases v <;> simp [JsVal.strictEqStr]

theorem JsVal.strictEqStr_eq_false_iff (v : JsVal) (s : String) :
    v.strictEqStr s = false ↔ v ≠ JsVal.str s := by
  rw [Ne, ← JsVal.strictEqStr_eq_true_iff, Bool.not_eq_true]

theorem JsVal.truthy_str (s : String) : (JsVal.str s).truthy = true ↔ s ≠ "" := by
  simp [JsVal.truthy]

theorem JsVal.truthy_num (n : Int) : (JsVal.num n).truthy = true ↔ n ≠ 0 := by
  simp [JsVal.truthy]

theorem JsVal.ne_undefined_of_truthy {v : JsVal} (h : v.truthy = true) : v ≠ JsVal.undefined := by
  intro hv; rw [hv] at h; simp [JsVal.truthy] at h

theorem Obj.get_nil (k : String) : Obj.get [] k = JsVal.undefined := rfl

theorem Obj.get_cons (k' : String) (v' : JsVal) (o : Obj) (k : String) :
    Obj.get ((k', v') :: o) k = if k = k' then v' else Obj.get o k := by
  by_cases h : k = k'
  · subst h; simp [Obj.get, List.lookup]
  · have hb : (k == k') = false := by simpa using h
    simp [Obj.get, List.lookup, hb, h]

theorem Obj.has_cons (k' : String) (v' : JsVal) (o : Obj) (k : String) :
    Obj.has ((k', v') :: o) k = if k = k' then true else Obj.has o k := by
  by_cases h : k = k'
  · subst h; simp [Obj.has, List.lookup]
  · have hb : (k == k') = false := by simpa using h
    simp [Obj.has, List.lookup, hb, h]

theorem Obj.get_set_self (o : Obj) (k : String) (v : JsVal) : Obj.get (Obj.set o k v) k = v := by
  induction o with
  | nil => simp [Obj.set, Obj.get_cons]
  | cons kv rest ih =>
    obtain ⟨k', v'⟩ := kv
    by_cases h : k' = k
    · simp [Obj.set, h, Obj.get_cons]
    · have h' : ¬ k = k' := fun e => h e.symm
      simp [Obj.set, h, h', Obj.get_cons, ih]

theorem Obj.get_set_of_ne (o : Obj) {k j : String} (v : JsVal) (h : j ≠ k) :
    Obj.get (Obj.set o k v) j = Obj.get o j := by
  induction o with
  | nil => simp [Obj.set, Obj.get_cons, h, Obj.get_nil]
  | cons kv rest ih =>
    obtain ⟨k', v'⟩ := kv
    by_cases hk : k' = k
    · subst hk; simp [Obj.set, Obj.get_cons, h]
    · simp [Obj.set, hk, Obj.get_cons, ih]

theorem Obj.has_set_self (o : Obj) (k : String) (v : JsVal) : Obj.has (Obj.set o k v) k = true := by
  induction o with
  | nil => simp [Obj.set, Obj.has_cons]
  | cons kv rest ih =>
    obtain ⟨k', v'⟩ := kv
    by_cases h : k' = k
    · simp [Obj.set, h, Obj.has_cons]
    · have h' : ¬ k = k' := fun e => h e.symm
      simp [Obj.set, h, h', Obj.has_cons, ih]

theorem Obj.get_erase_self (o : Obj) (k : String) : Obj.get (Obj.erase o k) k = JsVal.undefined := by
  induction o with
  | nil => rfl
  | cons kv rest ih =>
    obtain ⟨k', v'⟩ := kv
    by_cases h : k' = k
    · simpa [Obj.erase, List.filter, h] using ih
    · have h' : ¬ k = k' := fun e => h e.symm
      have : Obj.erase ((k', v') :: rest) k = (k', v') :: Obj.erase rest k := by
        simp [Obj.erase, List.filter_cons, h]
      rw [this, Obj.get_cons, if_neg h', ih]

theorem Obj.get_erase_of_ne (o : Obj) {k j : String} (h : j ≠ k) :
    Obj.get (Obj.erase o k) j = Obj.get o j := by
  induction o with
  | nil => rfl
  | cons kv rest ih =>
    obtain ⟨k', v'⟩ := kv
    by_cases hk : k' = k
    · subst hk
      have : Obj.erase ((k', v') :: rest) k' = Obj.erase rest k' := by
        simp [Obj.erase, List.filter]
      rw [this, ih, Obj.get_cons, if_neg h]
    · have : Obj.erase ((k', v') :: rest) k = (k', v') :: Obj.erase rest k := by
        simp [Obj.erase, List.filter_cons, hk]
      rw [this, Obj.get_cons, Obj.get_cons, ih]

theorem Obj.get_append (o o' : Obj) (k : String) :
    Obj.get (o ++ o') k = if Obj.has o k then Obj.get o k else Obj.get o' k := by
  induction o with
  | nil => simp [Obj.has, Obj.get]
  | cons kv rest ih =>
    obtain ⟨k', v'⟩ := kv
    by_cases h : k = k'
    · simp [Obj.get_cons, Obj.has_cons, h]
    · simp only [List.cons_append, Obj.get_cons, Obj.has_cons, if_neg h, ih]

theorem Obj.has_append (o o' : Obj) (k : String) :
    Obj.has (o ++ o') k = (Obj.has o k || Obj.has o' k) := by
  induction o with
  | nil => simp [Obj.has]
  | cons kv rest ih =>
    obtain ⟨k', v'⟩ := kv
    by_cases h : k = k'
    · simp [Obj.has_cons, h]
    · simp only [List.cons_append, Obj.has_cons, if_neg h, ih]

theorem Obj.get_of_has_eq_false {o : Obj} {k : String} (h : Obj.has o k = false) :
    Obj.get o k = JsVal.undefined := by
  unfold Obj.has at h; unfold Obj.get
  cases hl : List.lookup k o with
  | none => rfl
  | some v => rw [hl] at h; simp at h

theorem valueOf_get_properties (schema : Document) :
    schema.valueOf.get "properties" = JsVal.obj (flat schema.properties) := by
  unfold Document.valueOf
  exact Obj.get_set_self _ _ _

theorem last_append_singleton (xs : List Entry) (e : Entry) : last (xs ++ [e]) = some e := by
  simp [last]

theorem last_eq_none_iff (xs : List Entry) : last xs = none ↔ xs = [] := by
  simp [last]

/-! ## Lemmas on `prop` -/

theorem Obj.get_pick (k : String) (v : JsVal) (j : String) :
    Obj.get (pick k v) j = if j = k ∧ v.truthy = true then v else JsVal.undefined := by
  unfold pick
  by_cases hv : v.truthy = true
  · by_cases hj : j = k <;> simp [hv, hj, Obj.get_cons, Obj.get_nil]
  · simp [hv, Obj.get_nil]

theorem Obj.has_pick (k : String) (v : JsVal) (j : String) :
    Obj.has (pick k v) j = (decide (j = k) && v.truthy) := by
  unfold pick
  by_cases hv : v.truthy = true
  · by_cases hj : j = k <;> simp [hv, hj, Obj.has_cons, Obj.has]
  · simp [hv, Obj.has]

theorem buildEntry_name (target name : String) (a : Obj) : (buildEntry target name a).name = name := by
  unfold buildEntry
  simp only
  split <;> rfl

theorem buildEntry_of_ref (target name : String) (a : Obj) (h : (a.get "$ref").truthy = true) :
    buildEntry target name a = { name := name, attrs := [("$ref", a.get "$ref")] } := by
  simp [buildEntry, h]

theorem buildEntry_attrs (target name : String) (a : Obj) (h : (a.get "$ref").truthy = false) :
    (buildEntry target name a).attrs =
        pick "type" (defaultedType a) ++
        pick "default" (a.get "defaults") ++
        pick "title" (a.get "title") ++
        pick "$id" (defaultedId target name a) ++
        pick "description" (a.get "description") ++
        pick "properties" (a.get "properties") ++
        pick "required" (a.get "required") ++
        pick "anyOf" (a.get "anyOf") ++
        pick "oneOf" (a.get "oneOf") ++
        pick "allOf" (a.get "allOf") ++
        pick "not" (a.get "not") ++
        pick "minLength" (a.get "minLength") ++
        pick "maxLength" (a.get "maxLength") ++
        pick "pattern" (a.get "pattern") ++
        pick "format" (a.get "format") ++
        pick "minimum" (a.get "minimum") ++
        pick "maximum" (a.get "maximum") ++
        pick "multipleOf" (a.get "multipleOf") ++
        pick "exclusiveMaximum" (a.get "exclusiveMaximum") ++
        pick "exclusiveMinimum" (a.get "exclusiveMinimum") := by
  simp [buildEntry, h]

theorem kept_of_truthy {v : JsVal} (h : v.truthy = true) : kept v = v := by simp [kept, h]

theorem buildEntry_get_type (target name : String) (a : Obj) (h : (a.get "$ref").truthy = false) :
    (buildEntry target name a).get "type" = kept (defaultedType a) := by
  rw [Entry.get, buildEntry_attrs _ _ _ h]
  simp only [Obj.get_append, Obj.has_append, Obj.get_pick, Obj.has_pick, kept]
  by_cases hv : (defaultedType a).truthy = true <;> simp [hv]

theorem buildEntry_get_title (target name : String) (a : Obj) (h : (a.get "$ref").truthy = false) :
    (buildEntry target name a).get "title" = kept (a.get "title") := by
  rw [Entry.get, buildEntry_attrs _ _ _ h]
  simp only [Obj.get_append, Obj.has_append, Obj.get_pick, Obj.has_pick, kept]
  by_cases hv : (a.get "title").truthy = true <;> simp [hv]

theorem buildEntry_get_id (target name : String) (a : Obj) (h : (a.get "$ref").truthy = false) :
    (buildEntry target name a).get "$id" = kept (defaultedId target name a) := by
  rw [Entry.get, buildEntry_attrs _ _ _ h]
  simp only [Obj.get_append, Obj.has_append, Obj.get_pick, Obj.has_pick, kept]
  by_cases hv : (defaultedId target name a).truthy = true <;> simp [hv]

theorem buildEntry_get_description (target name : String) (a : Obj) (h : (a.get "$ref").truthy = false) :
    (buildEntry target name a).get "description" = kept (a.get "description") := by
  rw [Entry.get, buildEntry_attrs _ _ _ h]
  simp only [Obj.get_append, Obj.has_append, Obj.get_pick, Obj.has_pick, kept]
  by_cases hv : (a.get "description").truthy = true <;> simp [hv]

theorem buildEntry_get_not (target name : String) (a : Obj) (h : (a.get "$ref").truthy = false) :
    (buildEntry target name a).get "not" = kept (a.get "not") := by
  rw [Entry.get, buildEntry_attrs _ _ _ h]
  simp only [Obj.get_append, Obj.has_append, Obj.get_pick, Obj.has_pick, kept]
  by_cases hv : (a.get "not").truthy = true <;> simp [hv]

theorem buildEntry_get_minLength (target name : String) (a : Obj) (h : (a.get "$ref").truthy = false) :
    (buildEntry target name a).get "minLength" = kept (a.get "minLength") := by
  rw [Entry.get, buildEntry_attrs _ _ _ h]
  simp only [Obj.get_append, Obj.has_append, Obj.get_pick, Obj.has_pick, kept]
  by_cases hv : (a.get "minLength").truthy = true <;> simp [hv]

theorem buildEntry_get_maxLength (target name : String) (a : Obj) (h : (a.get "$ref").truthy = false) :
    (buildEntry target name a).get "maxLength" = kept (a.get "maxLength") := by
  rw [Entry.get, buildEntry_attrs _ _ _ h]
  simp only [Obj.get_append, Obj.has_append, Obj.get_pick, Obj.has_pick, kept]
  by_cases hv : (a.get "maxLength").truthy = true <;> simp [hv]

theorem buildEntry_get_minimum (target name : String) (a : Obj) (h : (a.get "$ref").truthy = false) :
    (buildEntry target name a).get "minimum" = kept (a.get "minimum") := by
  rw [Entry.get, buildEntry_attrs _ _ _ h]
  simp only [Obj.get_append, Obj.has_append, Obj.get_pick, Obj.has_pick, kept]
  by_cases hv : (a.get "minimum").truthy = true <;> simp [hv]

theorem buildEntry_get_default (target name : String) (a : Obj) (h : (a.get "$ref").truthy = false) :
    (buildEntry target name a).get "default" = kept (a.get "defaults") := by
  rw [Entry.get, buildEntry_attrs _ _ _ h]
  simp only [Obj.get_append, Obj.has_append, Obj.get_pick, Obj.has_pick, kept]
  by_cases hv : (a.get "defaults").truthy = true <;> simp [hv]

theorem buildEntry_get_anyOf (target name : String) (a : Obj) (h : (a.get "$ref").truthy = false) :
    (buildEntry target name a).get "anyOf" = kept (a.get "anyOf") := by
  rw [Entry.get, buildEntry_attrs _ _ _ h]
  simp only [Obj.get_append, Obj.has_append, Obj.get_pick, Obj.has_pick, kept]
  by_cases hv : (a.get "anyOf").truthy = true <;> simp [hv]

theorem buildEntry_has_type (target name : String) (a : Obj) (h : (a.get "$ref").truthy = false) :
    (buildEntry target name a).attrs.has "type" = (defaultedType a).truthy := by
  rw [buildEntry_attrs _ _ _ h]
  simp [Obj.has_append, Obj.has_pick]

theorem buildEntry_get_ref (target name : String) (a : Obj) (h : (a.get "$ref").truthy = false) :
    (buildEntry target name a).get "$ref" = JsVal.undefined := by
  rw [Entry.get, buildEntry_attrs _ _ _ h]
  simp [Obj.get_append, Obj.has_append, Obj.get_pick, Obj.has_pick]

theorem buildEntry_get_def (target name : String) (a : Obj) :
    (buildEntry target name a).get "def" = JsVal.undefined := by
  by_cases h : (a.get "$ref").truthy = true
  · rw [buildEntry_of_ref _ _ _ h]; simp [Entry.get, Obj.get_cons, Obj.get_nil]
  · rw [Entry.get, buildEntry_attrs _ _ _ (by simpa using h)]
    simp [Obj.get_append, Obj.has_append, Obj.get_pick, Obj.has_pick]

theorem prop_plain_of_not_def (d : Document) (name : String) (a : Obj)
    (h : (a.get "def").truthy = false) :
    d.prop name (.plain a) =
      { d with properties := d.properties ++ [buildEntry "properties" name a] } := by
  simp [Document.prop, PropArg.isDef, PropArg.attributes, h]

theorem prop_plain_of_def (d : Document) (name : String) (a : Obj)
    (h : (a.get "def").truthy = true) :
    d.prop name (.plain a) =
      { d with definitions := d.definitions ++ [buildEntry "definitions" name a] } := by
  simp [Document.prop, PropArg.isDef, PropArg.attributes, h]

/-! ## Lemmas on `setMeta` -/

theorem setMeta_of_no_property (d : Document) (key : String) (v : JsVal) (type : String)
    (h : d.properties = []) :
    setMeta d key v type = .ok { d with fields := d.fields.set key v } := by
  simp [setMeta, h, last]

theorem setMeta_of_mismatch (d : Document) (key : String) (v : JsVal) (type : String) (p : Entry)
    (hp : last d.properties = some p) (ht : p.get "type" ≠ JsVal.str type) :
    setMeta d key v type = .error (.optionNotAccepted p.name type key) := by
  have := (JsVal.strictEqStr_eq_false_iff _ _).2 ht
  simp [setMeta, hp, this]

theorem setMeta_of_match (d : Document) (key : String) (v : JsVal) (type : String) (p : Entry)
    (hp : last d.properties = some p) (ht : p.get "type" = JsVal.str type) :
    setMeta d key v type = .ok (d.prop p.name (.plain (p.attrs.set key v))) := by
  have := (JsVal.strictEqStr_eq_true_iff _ _).2 ht
  simp [setMeta, hp, this]

theorem setMeta_error_iff (d : Document) (key : String) (v : JsVal) (type : String) :
    (∃ e, e.kind = ErrorKind.typeMismatch ∧ setMeta d key v type = .error e) ↔
      ∃ p, last d.properties = some p ∧ p.get "type" ≠ JsVal.str type := by
  constructor
  · rintro ⟨e, -, he⟩
    cases hp : last d.properties with
    | none =>
      rw [setMeta_of_no_property d key v type ((last_eq_none_iff _).1 hp)] at he
      cases he
    | some p =>
      refine ⟨p, rfl, fun ht => ?_⟩
      rw [setMeta_of_match d key v type p hp ht] at he
      cases he
  · rintro ⟨p, hp, ht⟩
    exact ⟨.optionNotAccepted p.name type key, rfl, setMeta_of_mismatch d key v type p hp ht⟩

theorem setMeta_ok_or_mismatch (d : Document) (key : String) (v : JsVal) (type : String) :
    (∃ d', setMeta d key v type = .ok d') ∨
      ∃ e, e.kind = ErrorKind.typeMismatch ∧ setMeta d key v type = .error e := by
  cases hp : last d.properties with
  | none => exact .inl ⟨_, setMeta_of_no_property d key v type ((last_eq_none_iff _).1 hp)⟩
  | some p =>
    by_cases ht : p.get "type" = JsVal.str type
    · exact .inl ⟨_, setMeta_of_match d key v type p hp ht⟩
    · exact .inr ⟨.optionNotAccepted p.name type key, rfl, setMeta_of_mismatch d key v type p hp ht⟩

theorem prop_plain_last (d : Document) (name : String) (a : Obj)
    (h : (a.get "def").truthy = false) :
    last (d.prop name (.plain a)).properties = some (buildEntry "properties" name a) := by
  rw [prop_plain_of_not_def d name a h]
  exact last_append_singleton _ _

theorem setMeta_refines (d : Document) (key : String) (v : JsVal) (type : String) (p : Entry)
    (hp : last d.properties = some p) (ht : p.get "type" = JsVal.str type)
    (hdef : (p.get "def").truthy = false) (hk : key ≠ "def") :
    setMeta d key v type =
      .ok { d with properties := d.properties ++ [buildEntry "properties" p.name (p.attrs.set key v)] } := by
  rw [setMeta_of_match d key v type p hp ht, prop_plain_of_not_def]
  rw [Obj.get_set_of_ne _ _ (Ne.symm hk)]
  exact hdef

/-- The entry that `setMeta` re-derives from a last property `p` of the
matching type: it keeps the name and the type of `p`, is not a reference
entry, and holds `v` under `key` when `v` is truthy. -/
theorem refined_entry (p : Entry) (key : String) (v : JsVal) (type : String)
    (ht : p.get "type" = JsVal.str type) (hne : type ≠ "")
    (href : (p.get "$ref").truthy = false)
    (hk1 : key ≠ "type") (hk2 : key ≠ "$ref") :
    (buildEntry "properties" p.name (p.attrs.set key v)).name = p.name ∧
    (buildEntry "properties" p.name (p.attrs.set key v)).get "type" = JsVal.str type ∧
    (buildEntry "properties" p.name (p.attrs.set key v)).get "$ref" = JsVal.undefined ∧
    (buildEntry "properties" p.name (p.attrs.set key v)).get "def" = JsVal.undefined := by
  have href' : ((p.attrs.set key v).get "$ref").truthy = false := by
    rw [Obj.get_set_of_ne _ _ (Ne.symm hk2)]; exact href
  refine ⟨buildEntry_name _ _ _, ?_, buildEntry_get_ref _ _ _ href', buildEntry_get_def _ _ _⟩
  rw [buildEntry_get_type _ _ _ href']
  have : defaultedType (p.attrs.set key v) = JsVal.str type := by
    unfold defaultedType
    rw [Obj.get_set_of_ne _ _ (Ne.symm hk1)]
    rw [show Obj.get p.attrs "type" = JsVal.str type from ht]
  rw [this]
  exact kept_of_truthy ((JsVal.truthy_str _).2 hne)

theorem refined_entry_get (p : Entry) (key : String) (v : JsVal)
    (href : (p.get "$ref").truthy = false) (hk2 : key ≠ "$ref") :
    ((buildEntry "properties" p.name (p.attrs.set key v)).get "title" =
        kept ((p.attrs.set key v).get "title")) ∧
    ((buildEntry "properties" p.name (p.attrs.set key v)).get "description" =
        kept ((p.attrs.set key v).get "description")) ∧
    ((buildEntry "properties" p.name (p.attrs.set key v)).get "minLength" =
        kept ((p.attrs.set key v).get "minLength")) ∧
    ((buildEntry "properties" p.name (p.attrs.set key v)).get "maxLength" =
        kept ((p.attrs.set key v).get "maxLength")) ∧
    ((buildEntry "properties" p.name (p.attrs.set key v)).get "minimum" =
        kept ((p.attrs.set key v).get "minimum")) := by
  have href' : ((p.attrs.set key v).get "$ref").truthy = false := by
    rw [Obj.get_set_of_ne _ _ (Ne.symm hk2)]; exact href
  exact ⟨buildEntry_get_title _ _ _ href', buildEntry_get_description _ _ _ href',
    buildEntry_get_minLength _ _ _ href', buildEntry_get_maxLength _ _ _ href',
    buildEntry_get_minimum _ _ _ href'⟩

/-- One step of `prop` with a plain bag that is neither a definition nor a
reference: one entry is appended to `properties`. -/
theorem prop_step (d : Document) (name : String) (a : Obj)
    (hdef : (a.get "def").truthy = false) (href : (a.get "$ref").truthy = false) :
    ∃ q, d.prop name (.plain a) = { d with properties := d.properties ++ [q] } ∧
      q.name = name ∧ q.get "type" = kept (defaultedType a) ∧
      (q.get "$ref").truthy = false ∧ (q.get "def").truthy = false := by
  refine ⟨buildEntry "properties" name a, prop_plain_of_not_def d name a hdef,
    buildEntry_name _ _ _, buildEntry_get_type _ _ _ href, ?_, ?_⟩
  · rw [buildEntry_get_ref _ _ _ href]; rfl
  · rw [buildEntry_get_def]; rfl

/-- One successful step of `setMeta` on a last property `p` of the option's
type, for a key other than `type`: the appended entry keeps the name and the
type and holds `v` under the key when `v` is truthy. -/
theorem setMeta_step (d : Document) (key : String) (v : JsVal) (type : String) (p : Entry)
    (hp : last d.properties = some p) (ht : p.get "type" = JsVal.str type) (hne : type ≠ "")
    (href : (p.get "$ref").truthy = false) (hdef : (p.get "def").truthy = false)
    (hk1 : key ≠ "type") (hk2 : key ≠ "$ref") (hk3 : key ≠ "def") :
    ∃ q, setMeta d key v type = .ok { d with properties := d.properties ++ [q] } ∧
      q.name = p.name ∧ q.get "type" = JsVal.str type ∧
      (q.get "$ref").truthy = false ∧ (q.get "def").truthy = false ∧
      q.get "title" = kept ((p.attrs.set key v).get "title") ∧
      q.get "description" = kept ((p.attrs.set key v).get "description") ∧
      q.get "minLength" = kept ((p.attrs.set key v).get "minLength") ∧
      q.get "maxLength" = kept ((p.attrs.set key v).get "maxLength") ∧
      q.get "minimum" = kept ((p.attrs.set key v).get "minimum") := by
  have e := refined_entry p key v type ht hne href hk1 hk2
  have g := refined_entry_get p key v href hk2
  refine ⟨buildEntry "properties" p.name (p.attrs.set key v),
    setMeta_refines d key v type p hp ht hdef hk3, e.1, e.2.1, ?_, ?_, g⟩
  · rw [e.2.2.1]; rfl
  · rw [e.2.2.2]; rfl

/-- One successful step of `as(t)` on a last property of type `'string'`: the
appended entry keeps the name and has type `t`. -/
theorem as_step (d : Document) (t : String) (p : Entry)
    (hp : last d.properties = some p) (ht : p.get "type" = JsVal.str "string") (hne : t ≠ "")
    (href : (p.get "$ref").truthy = false) (hdef : (p.get "def").truthy = false) :
    ∃ q, d.as t = .ok { d with properties := d.properties ++ [q] } ∧
      q.name = p.name ∧ q.get "type" = JsVal.str t ∧
      (q.get "$ref").truthy = false ∧ (q.get "def").truthy = false := by
  have href' : ((p.attrs.set "type" (.str t)).get "$ref").truthy = false := by
    rw [Obj.get_set_of_ne _ _ (by decide)]; exact href
  refine ⟨buildEntry "properties" p.name (p.attrs.set "type" (.str t)),
    setMeta_refines d "type" (.str t) "string" p hp ht hdef (by decide),
    buildEntry_name _ _ _, ?_, ?_, ?_⟩
  · rw [buildEntry_get_type _ _ _ href']
    have : defaultedType (p.attrs.set "type" (.str t)) = JsVal.str t := by
      unfold defaultedType
      rw [Obj.get_set_self]
    rw [this]
    exact kept_of_truthy ((JsVal.truthy_str _).2 hne)
  · rw [buildEntry_get_ref _ _ _ href']; rfl
  · rw [buildEntry_get_def]; rfl

theorem kept_defaultedType_nil : kept (defaultedType []) = JsVal.str "string" := by
  simp [kept, defaultedType, Obj.get_nil, hasCombiningKeywords, Obj.has, JsVal.truthy]

theorem kept_defaultedType_number :
    kept (defaultedType [("type", .str "number")]) = JsVal.str "number" := by
  simp [kept, defaultedType, Obj.get_cons, JsVal.truthy]

/-- For a non-zero integer `n` the chains of C2 do store the bound: the last
entry has the name, the type and the bound `n`. -/
theorem nonzero_bound_stored (name : String) (n : Int) (hn : n ≠ 0) :
    (∃ d q, ((initialState.prop name).asString.bind fun s => s.minLength (.num n)) = .ok d ∧
      last d.properties = some q ∧ q.name = name ∧ q.get "type" = .str "string" ∧
      q.get "minLength" = .num n) ∧
    (∃ d q, ((initialState.prop name).asString.bind fun s => s.maxLength (.num n)) = .ok d ∧
      last d.properties = some q ∧ q.name = name ∧ q.get "type" = .str "string" ∧
      q.get "maxLength" = .num n) ∧
    (∃ d q, (initialState.prop name (.plain [("type", .str "number")])).minimum (.num n) = .ok d ∧
      last d.properties = some q ∧ q.name = name ∧ q.get "type" = .str "number" ∧
      q.get "minimum" = .num n) := by
  have hkept : kept (JsVal.num n) = JsVal.num n := kept_of_truthy ((JsVal.truthy_num n).2 hn)
  obtain ⟨q0, e0, n0, t0, r0, d0⟩ := prop_step initialState name [] rfl rfl
  rw [kept_defaultedType_nil] at t0
  have hl0 : last (initialState.prop name).properties = some q0 := by
    rw [e0]; exact last_append_singleton _ _
  obtain ⟨q1, e1, n1, t1, r1, d1⟩ :=
    as_step (initialState.prop name) "string" q0 hl0 t0 (by decide) r0 d0
  obtain ⟨q2, e2, n2, t2, r2, d2⟩ :=
    prop_step initialState name [("type", .str "number")] rfl rfl
  rw [kept_defaultedType_number] at t2
  have hl2 : last (initialState.prop name (.plain [("type", .str "number")])).properties
      = some q2 := by
    rw [e2]; exact last_append_singleton _ _
  have hl1 : last ({ initialState.prop name with
      properties := (initialState.prop name).properties ++ [q1] } : Document).properties
      = some q1 := last_append_singleton _ _
  refine ⟨?_, ?_, ?_⟩
  · obtain ⟨q, e, hn', ht', -, -, -, -, g, -, -⟩ :=
      setMeta_step _ "minLength" (.num n) "string" q1 hl1 t1 (by decide) r1 d1
        (by decide) (by decide) (by decide)
    rw [Obj.get_set_self, hkept] at g
    have hc : ((initialState.prop name).asString.bind fun s => s.minLength (.num n)) =
        setMeta { initialState.prop name with
          properties := (initialState.prop name).properties ++ [q1] } "minLength" (.num n) := by
      simp only [Document.asString, Document.minLength, JsVal.isInteger, e1, Except.bind]
      rfl
    rw [hc, e]
    exact ⟨_, q, rfl, last_append_singleton _ _, by rw [hn', n1, n0], ht', g⟩
  · obtain ⟨q, e, hn', ht', -, -, -, -, -, g, -⟩ :=
      setMeta_step _ "maxLength" (.num n) "string" q1 hl1 t1 (by decide) r1 d1
        (by decide) (by decide) (by decide)
    rw [Obj.get_set_self, hkept] at g
    have hc : ((initialState.prop name).asString.bind fun s => s.maxLength (.num n)) =
        setMeta { initialState.prop name with
          properties := (initialState.prop name).properties ++ [q1] } "maxLength" (.num n) := by
      simp only [Document.asString, Document.maxLength, JsVal.isInteger, e1, Except.bind]
      rfl
    rw [hc, e]
    exact ⟨_, q, rfl, last_append_singleton _ _, by rw [hn', n1, n0], ht', g⟩
  · obtain ⟨q, e, hn', ht', -, -, -, -, -, -, g⟩ :=
      setMeta_step (initialState.prop name (.plain [("type", .str "number")])) "minimum" (.num n)
        "number" q2 hl2 t2 (by decide) r2 d2 (by decide) (by decide) (by decide)
    rw [Obj.get_set_self, hkept] at g
    have hc : (initialState.prop name (.plain [("type", .str "number")])).minimum (.num n) =
        setMeta (initialState.prop name (.plain [("type", .str "number")])) "minimum" (.num n)
          "number" := by
      simp [Document.minimum, JsVal.isInteger]
    rw [hc, e]
    exact ⟨_, q, rfl, last_append_singleton _ _, by rw [hn', n2], ht', g⟩

/-- One successful step of `id(v)` on a last property of type `'string'`, for
a truthy `v`. -/
theorem id_step (d : Document) (v : JsVal) (p : Entry)
    (hp : last d.properties = some p) (ht : p.get "type" = JsVal.str "string")
    (href : (p.get "$ref").truthy = false) (hdef : (p.get "def").truthy = false)
    (hv : v.truthy = true) :
    LastHolds (d.id v) p.name "$id" v := by
  have href' : ((p.attrs.set "$id" v).get "$ref").truthy = false := by
    rw [Obj.get_set_of_ne _ _ (by decide)]; exact href
  refine ⟨_, buildEntry "properties" p.name (p.attrs.set "$id" v),
    setMeta_refines d "$id" v "string" p hp ht hdef (by decide), last_append_singleton _ _,
    buildEntry_name _ _ _, ?_⟩
  rw [buildEntry_get_id _ _ _ href']
  have : defaultedId "properties" p.name (p.attrs.set "$id" v) = v := by
    unfold defaultedId
    rw [Obj.get_set_self]
    cases v <;> simp_all [JsVal.truthy]
  rw [this]
  exact kept_of_truthy hv

theorem lastHolds_as (d : Document) (t : String) (p : Entry)
    (hp : last d.properties = some p) (ht : p.get "type" = JsVal.str "string") (hne : t ≠ "")
    (href : (p.get "$ref").truthy = false) (hdef : (p.get "def").truthy = false) :
    LastHolds (d.as t) p.name "type" (.str t) := by
  obtain ⟨q, e, hn, hq, -, -⟩ := as_step d t p hp ht hne href hdef
  exact ⟨_, q, e, last_append_singleton _ _, hn, hq⟩

theorem lastHolds_setMeta (d : Document) (v : JsVal) (p : Entry)
    (hp : last d.properties = some p) (ht : p.get "type" = JsVal.str "string")
    (href : (p.get "$ref").truthy = false) (hdef : (p.get "def").truthy = false)
    (hv : v.truthy = true) :
    LastHolds (setMeta d "title" v) p.name "title" v ∧
    LastHolds (setMeta d "description" v) p.name "description" v := by
  constructor
  · obtain ⟨q, e, hn, -, -, -, g, -, -, -, -⟩ :=
      setMeta_step d "title" v "string" p hp ht (by decide) href hdef
        (by decide) (by decide) (by decide)
    rw [Obj.get_set_self, kept_of_truthy hv] at g
    exact ⟨_, q, e, last_append_singleton _ _, hn, g⟩
  · obtain ⟨q, e, hn, -, -, -, -, g, -, -, -⟩ :=
      setMeta_step d "description" v "string" p hp ht (by decide) href hdef
        (by decide) (by decide) (by decide)
    rw [Obj.get_set_self, kept_of_truthy hv] at g
    exact ⟨_, q, e, last_append_singleton _ _, hn, g⟩

theorem setsOnlyField_setMeta (d : Document) (key : String) (v : JsVal) (type : String)
    (h : d.properties = []) : SetsOnlyField d (setMeta d key v type) key v :=
  ⟨_, setMeta_of_no_property d key v type h, rfl, rfl, rfl, Obj.get_set_self _ _ _,
    fun _ hk => Obj.get_set_of_ne _ _ hk⟩

theorem setsOnlyField_ref (d : Document) (v : JsVal) (h : d.properties = []) :
    SetsOnlyField d (d.ref v) "$ref" v := by
  refine ⟨{ d with fields := d.fields.set "$ref" v }, ?_, rfl, rfl, rfl, Obj.get_set_self _ _ _,
    fun _ hk => Obj.get_set_of_ne _ _ hk⟩
  simp [Document.ref, h, last]

theorem prop_plain_appends (d : Document) (name : String) (a : Obj) :
    ∃ target, Appends d (d.prop name (.plain a)) (buildEntry target name a) := by
  by_cases h : (a.get "def").truthy = true
  · exact ⟨"definitions", .inr (prop_plain_of_def d name a h)⟩
  · exact ⟨"properties", .inl (prop_plain_of_not_def d name a (by simpa using h))⟩

theorem String.append_ne_empty (s t : String) (h : s ≠ "") : s ++ t ≠ "" := by
  intro e
  apply h
  have := congrArg String.data e
  simp at this
  exact String.ext (by simpa using this.1)

theorem defaultedId_of_undefined (target name : String) (a : Obj)
    (h : a.get "$id" = JsVal.undefined) :
    defaultedId target name a = JsVal.str ("#" ++ target ++ "/" ++ name) := by
  simp [defaultedId, h]

theorem kept_defaultedId_definitions (name : String) (a : Obj) (h : a.get "$id" = JsVal.undefined) :
    kept (defaultedId "definitions" name a) = JsVal.str ("#definitions/" ++ name) := by
  rw [defaultedId_of_undefined _ _ _ h,
    show ("#" ++ "definitions" ++ "/" : String) = "#definitions/" from by decide]
  exact kept_of_truthy ((JsVal.truthy_str _).2 (String.append_ne_empty _ _ (by decide)))

theorem kept_defaultedId_properties (name : String) (a : Obj) (h : a.get "$id" = JsVal.undefined) :
    kept (defaultedId "properties" name a) = JsVal.str ("#properties/" ++ name) := by
  rw [defaultedId_of_undefined _ _ _ h,
    show ("#" ++ "properties" ++ "/" : String) = "#properties/" from by decide]
  exact kept_of_truthy ((JsVal.truthy_str _).2 (String.append_ne_empty _ _ (by decide)))

theorem defaultedType_of_undefined (a : Obj) (h : a.get "type" = JsVal.undefined) :
    defaultedType a = if hasCombiningKeywords a then JsVal.undefined else JsVal.str "string" := by
  simp [defaultedType, h]

theorem defaultedType_of_truthy (a : Obj) (h : (a.get "type").truthy = true) :
    defaultedType a = a.get "type" := by
  unfold defaultedType
  cases hv : a.get "type" <;> simp_all [JsVal.truthy]

theorem hasCombiningKeywords_eq_false_iff (a : Obj) :
    hasCombiningKeywords a = false ↔ ∀ k ∈ combiningKeywords, a.has k = false := by
  simp [hasCombiningKeywords, combiningKeywords]
  tauto

theorem hasCombiningKeywords_eq_true_iff (a : Obj) :
    hasCombiningKeywords a = true ↔ ∃ k ∈ combiningKeywords, a.has k = true := by
  simp [hasCombiningKeywords, combiningKeywords]
  tauto

theorem exists_append_of_last {xs : List Entry} {p : Entry} (h : last xs = some p) :
    ∃ ys, xs = ys ++ [p] := by
  unfold last at h
  rcases List.eq_nil_or_concat xs with rfl | ⟨ys, q, rfl⟩
  · simp at h
  · simp at h; subst h; exact ⟨ys, by simp⟩

theorem not_of_no_property (d : Document) (h : d.properties = []) :
    d.not = .error .notWithoutProp := by
  simp [Document.not, h]

theorem not_of_last (d : Document) (ys : List Entry) (p : Entry) (h : d.properties = ys ++ [p]) :
    d.not = .ok (Document.prop { d with properties := ys.reverse } p.name
      (.plain ((p.attrs.erase "type").set "not" (.obj [])))) := by
  simp [Document.not, h]

/-! ## The claims -/

/-- C1: for every document and every integer `n`, `minLength(n)` and
`maxLength(n)` fail with a TypeMismatch error exactly when the document has a
last property whose type is not `'string'`, and `minimum(n)` exactly when it
has a last property whose type is not `'number'`; a typeless last property is
a mismatch, a document with no property never fails, and there is no other
failure. -/
theorem setters_fail_iff_type_mismatch (d : Document) (n : Int) :
    (((∃ e, e.kind = ErrorKind.typeMismatch ∧ d.minLength (.num n) = .error e) ↔
        ∃ p, last d.properties = some p ∧ p.get "type" ≠ JsVal.str "string") ∧
      ((∃ d', d.minLength (.num n) = .ok d') ∨
        ∃ e, e.kind = ErrorKind.typeMismatch ∧ d.minLength (.num n) = .error e)) ∧
    (((∃ e, e.kind = ErrorKind.typeMismatch ∧ d.maxLength (.num n) = .error e) ↔
        ∃ p, last d.properties = some p ∧ p.get "type" ≠ JsVal.str "string") ∧
      ((∃ d', d.maxLength (.num n) = .ok d') ∨
        ∃ e, e.kind = ErrorKind.typeMismatch ∧ d.maxLength (.num n) = .error e)) ∧
    (((∃ e, e.kind = ErrorKind.typeMismatch ∧ d.minimum (.num n) = .error e) ↔
        ∃ p, last d.properties = some p ∧ p.get "type" ≠ JsVal.str "number") ∧
      ((∃ d', d.minimum (.num n) = .ok d') ∨
        ∃ e, e.kind = ErrorKind.typeMismatch ∧ d.minimum (.num n) = .error e)) := by
  have h1 : d.minLength (.num n) = setMeta d "minLength" (.num n) "string" := by
    simp [Document.minLength, JsVal.isInteger]
  have h2 : d.maxLength (.num n) = setMeta d "maxLength" (.num n) "string" := by
    simp [Document.maxLength, JsVal.isInteger]
  have h3 : d.minimum (.num n) = setMeta d "minimum" (.num n) "number" := by
    simp [Document.minimum, JsVal.isInteger]
  rw [h1, h2, h3]
  exact ⟨⟨setMeta_error_iff _ _ _ _, setMeta_ok_or_mismatch _ _ _ _⟩,
    ⟨setMeta_error_iff _ _ _ _, setMeta_ok_or_mismatch _ _ _ _⟩,
    ⟨setMeta_error_iff _ _ _ _, setMeta_ok_or_mismatch _ _ _ _⟩⟩

/-- C2, at the failing input `n = 0`: after `prop('a').asString().minLength(0)`
on the empty builder the last entry of `properties` has no `minLength` key;
likewise `maxLength(0)` stores no `maxLength`, and
`prop('a', {type:'number'}).minimum(0)` stores no `minimum`.  The bound `0` is
falsy, and `prop` copies a key only when its value is truthy. -/
theorem zero_bound_not_stored :
    (∃ d, ((initialState.prop "a").asString.bind fun s => s.minLength (.num 0)) = .ok d ∧
      last d.properties =
        some { name := "a", attrs := [("type", .str "string"), ("$id", .str "#properties/a")] }) ∧
    (∃ d, ((initialState.prop "a").asString.bind fun s => s.maxLength (.num 0)) = .ok d ∧
      last d.properties =
        some { name := "a", attrs := [("type", .str "string"), ("$id", .str "#properties/a")] }) ∧
    (∃ d, (initialState.prop "a" (.plain [("type", .str "number")])).minimum (.num 0) = .ok d ∧
      last d.properties =
        some { name := "a", attrs := [("type", .str "number"), ("$id", .str "#properties/a")] }) :=
  ⟨⟨_, rfl, rfl⟩, ⟨_, rfl, rfl⟩, ⟨_, rfl, rfl⟩⟩

/-- On a last property of type `'number'` the guard of `setMeta`, whose type
defaults to `'string'`, stops `title('t')` and `asInteger()`. -/
theorem metadata_throws_on_number_property :
    (initialState.prop "a" (.plain [("type", .str "number")])).title (.str "t") =
      .error (.optionNotAccepted "a" "string" "title") ∧
    (initialState.prop "a" (.plain [("type", .str "number")])).asInteger =
      .error (.optionNotAccepted "a" "string" "type") ∧
    (BuilderError.optionNotAccepted "a" "string" "title").message =
      "\x27a\x27 as \x27string\x27 doesn\x27t accept \x27title\x27 option" :=
  ⟨rfl, rfl, by decide⟩

/-- When the last property `p` has type `'string'` the guard of `setMeta`
lets the untyped options through: for a truthy `v`, and `p` without reference
and definition marker, each of `id(v)`, `title(v)`, `description(v)` and the
`as*` returns a document whose last property has the name of `p` and holds the
new value. -/
theorem metadata_on_string_property (d : Document) (p : Entry) (v : JsVal)
    (hp : last d.properties = some p) (ht : p.get "type" = JsVal.str "string")
    (href : (p.get "$ref").truthy = false) (hdef : (p.get "def").truthy = false)
    (hv : v.truthy = true) :
    LastHolds (d.id v) p.name "$id" v ∧
    LastHolds (d.title v) p.name "title" v ∧
    LastHolds (d.description v) p.name "description" v ∧
    LastHolds d.asString p.name "type" (.str "string") ∧
    LastHolds d.asNumber p.name "type" (.str "number") ∧
    LastHolds d.asInteger p.name "type" (.str "integer") ∧
    LastHolds d.asBoolean p.name "type" (.str "boolean") ∧
    LastHolds d.asArray p.name "type" (.str "array") ∧
    LastHolds d.asObject p.name "type" (.str "object") ∧
    LastHolds d.asNull p.name "type" (.str "null") :=
  ⟨id_step d v p hp ht href hdef hv,
    (lastHolds_setMeta d v p hp ht href hdef hv).1,
    (lastHolds_setMeta d v p hp ht href hdef hv).2,
    lastHolds_as d "string" p hp ht (by decide) href hdef,
    lastHolds_as d "number" p hp ht (by decide) href hdef,
    lastHolds_as d "integer" p hp ht (by decide) href hdef,
    lastHolds_as d "boolean" p hp ht (by decide) href hdef,
    lastHolds_as d "array" p hp ht (by decide) href hdef,
    lastHolds_as d "object" p hp ht (by decide) href hdef,
    lastHolds_as d "null" p hp ht (by decide) href hdef⟩

/-- C3, refuted as stated: `title('')` on the string property of `prop('a')`
succeeds without storing a title, and on the reference entry of
`prop('a', {$ref: '#/definitions/d'})` the call `title('t')` does not succeed. -/
theorem metadata_not_for_every_property :
    (∃ d, (initialState.prop "a").title (.str "") = .ok d ∧
      last d.properties =
        some { name := "a", attrs := [("type", .str "string"), ("$id", .str "#properties/a")] } ∧
      (last d.properties).map (fun q => q.get "title") = some JsVal.undefined) ∧
    (initialState.prop "a" (.plain [("$ref", .str "#/definitions/d")])).title (.str "t") =
      .error (.optionNotAccepted "a" "string" "title") :=
  ⟨⟨_, rfl, rfl, rfl⟩, rfl⟩

/-- C3, amended: for every document whose last property `p` carries neither a
reference nor the definition marker, whatever the type of `p`, and for every
truthy value `v`, each of `id(v)`, `title(v)`, `description(v)` and
`asString`/`asNumber`/`asInteger`/`asBoolean`/`asArray`/`asObject`/`asNull`
returns a document whose last property has the name of `p` and holds the new
value (as `$id`, `title`, `description` or `type`), unless the type guard of
`setMeta` stops the call; there is no other failure. -/
theorem metadata_on_last_property (d : Document) (p : Entry) (v : JsVal)
    (hp : last d.properties = some p)
    (href : (p.get "$ref").truthy = false) (hdef : (p.get "def").truthy = false)
    (hv : v.truthy = true) :
    LastHoldsUnlessGuarded (d.id v) p.name "$id" v ∧
    LastHoldsUnlessGuarded (d.title v) p.name "title" v ∧
    LastHoldsUnlessGuarded (d.description v) p.name "description" v ∧
    LastHoldsUnlessGuarded d.asString p.name "type" (.str "string") ∧
    LastHoldsUnlessGuarded d.asNumber p.name "type" (.str "number") ∧
    LastHoldsUnlessGuarded d.asInteger p.name "type" (.str "integer") ∧
    LastHoldsUnlessGuarded d.asBoolean p.name "type" (.str "boolean") ∧
    LastHoldsUnlessGuarded d.asArray p.name "type" (.str "array") ∧
    LastHoldsUnlessGuarded d.asObject p.name "type" (.str "object") ∧
    LastHoldsUnlessGuarded d.asNull p.name "type" (.str "null") := by
  by_cases ht : p.get "type" = JsVal.str "string"
  · have h := metadata_on_string_property d p v hp ht href hdef hv
    exact ⟨.inl h.1, .inl h.2.1, .inl h.2.2.1, .inl h.2.2.2.1, .inl h.2.2.2.2.1,
      .inl h.2.2.2.2.2.1, .inl h.2.2.2.2.2.2.1, .inl h.2.2.2.2.2.2.2.1,
      .inl h.2.2.2.2.2.2.2.2.1, .inl h.2.2.2.2.2.2.2.2.2⟩
  · have hm : ∀ key w, setMeta d key w "string" = .error (.optionNotAccepted p.name "string" key) :=
      fun key w => setMeta_of_mismatch d key w "string" p hp ht
    exact ⟨.inr (hm _ _), .inr (hm _ _), .inr (hm _ _), .inr (hm _ _), .inr (hm _ _),
      .inr (hm _ _), .inr (hm _ _), .inr (hm _ _), .inr (hm _ _), .inr (hm _ _)⟩

/-- C3, amended, at `prop('a')` and the value `'t'`: the call
`prop('a').title('t')` is not stopped, and its last property is named `'a'`
and has the title `'t'`. -/
theorem metadata_on_last_property_witness :
    LastHolds ((initialState.prop "a").title (.str "t")) "a" "title" (.str "t") :=
  (metadata_on_last_property (initialState.prop "a")
    { name := "a", attrs := [("type", .str "string"), ("$id", .str "#properties/a")] }
    (.str "t") rfl rfl rfl rfl).2.1.resolve_right (fun h => nomatch h)

/-- C4: on a document whose `properties` sequence is empty, `id(v)`,
`title(v)`, `description(v)`, `examples(arr)` for an array, `ref(r)` and each
`as*` return the document with the one top-level key (`$id`, `title`,
`description`, `examples`, `$ref` or `type`) set to the given value;
`definitions`, `properties`, `required` and every other top-level key are
unchanged.  In particular `examples(['a','b'])` on the empty builder sets the
document-level `examples` to `['a','b']`. -/
theorem metadata_on_empty_properties (d : Document) (v : JsVal) (arr : List JsVal)
    (h : d.properties = []) :
    SetsOnlyField d (d.id v) "$id" v ∧
    SetsOnlyField d (d.title v) "title" v ∧
    SetsOnlyField d (d.description v) "description" v ∧
    SetsOnlyField d (d.examples (.arr arr)) "examples" (.arr arr) ∧
    SetsOnlyField d (d.ref v) "$ref" v ∧
    SetsOnlyField d d.asString "type" (.str "string") ∧
    SetsOnlyField d d.asNumber "type" (.str "number") ∧
    SetsOnlyField d d.asInteger "type" (.str "integer") ∧
    SetsOnlyField d d.asBoolean "type" (.str "boolean") ∧
    SetsOnlyField d d.asArray "type" (.str "array") ∧
    SetsOnlyField d d.asObject "type" (.str "object") ∧
    SetsOnlyField d d.asNull "type" (.str "null") ∧
    ∃ d', initialState.examples (.arr [.str "a", .str "b"]) = .ok d' ∧
      d'.fields.get "examples" = .arr [.str "a", .str "b"] :=
  ⟨setsOnlyField_setMeta d "$id" v "string" h,
    setsOnlyField_setMeta d "title" v "string" h,
    setsOnlyField_setMeta d "description" v "string" h,
    setsOnlyField_setMeta d "examples" (.arr arr) "string" h,
    setsOnlyField_ref d v h,
    setsOnlyField_setMeta d "type" (.str "string") "string" h,
    setsOnlyField_setMeta d "type" (.str "number") "string" h,
    setsOnlyField_setMeta d "type" (.str "integer") "string" h,
    setsOnlyField_setMeta d "type" (.str "boolean") "string" h,
    setsOnlyField_setMeta d "type" (.str "array") "string" h,
    setsOnlyField_setMeta d "type" (.str "object") "string" h,
    setsOnlyField_setMeta d "type" (.str "null") "string" h,
    _, rfl, rfl⟩

/-- C4 at the empty builder: `title('t')` sets the document-level title and
nothing else. -/
theorem metadata_on_empty_properties_witness :
    SetsOnlyField initialState (initialState.title (.str "t")) "title" (.str "t") :=
  (metadata_on_empty_properties initialState (.str "t") [.str "a", .str "b"] rfl).2.1

/-- C5: for every document, `examples(x)` fails with the InvalidArgument error
of `examples` when `x` is not an array, and `minLength(y)`, `maxLength(y)`,
`minimum(y)` fail with the InvalidArgument error of their option when `y` is
not an integer.  The document plays no part: the argument is checked before
the last property is looked at. -/
theorem argument_check_comes_first (d : Document) (x y : JsVal)
    (hx : x.isArray = false) (hy : y.isInteger = false) :
    d.examples x = .error .examplesNotArray ∧
    d.minLength y = .error (.notInteger "minLength") ∧
    d.maxLength y = .error (.notInteger "maxLength") ∧
    d.minimum y = .error (.notInteger "minimum") ∧
    BuilderError.examplesNotArray.kind = ErrorKind.invalidArgument ∧
    ∀ option, (BuilderError.notInteger option).kind = ErrorKind.invalidArgument := by
  refine ⟨?_, ?_, ?_, ?_, rfl, fun _ => rfl⟩
  · simp [Document.examples, hx]
  · simp [Document.minLength, hy]
  · simp [Document.maxLength, hy]
  · simp [Document.minimum, hy]

/-- C5 on a document whose last property has type `'number'`, where
`minLength` with an integer would be a type mismatch: the string `'2'` and the
string `'not-an-array'` are rejected as arguments. -/
theorem argument_check_comes_first_witness :
    (initialState.prop "a" (.plain [("type", .str "number")])).examples (.str "not-an-array") =
      .error .examplesNotArray ∧
    (initialState.prop "a" (.plain [("type", .str "number")])).minLength (.str "2") =
      .error (.notInteger "minLength") ∧
    (initialState.prop "a" (.plain [("type", .str "number")])).minLength (.num 2) =
      .error (.optionNotAccepted "a" "string" "minLength") :=
  have h := argument_check_comes_first (initialState.prop "a" (.plain [("type", .str "number")]))
    (.str "not-an-array") (.str "2") rfl rfl
  ⟨h.1, h.2.1, rfl⟩

/-- C6: for every name and every plain attributes bag without a reference,
the entry appended by `prop(name, attributes)` has type `'string'` when the
bag declares no type and contains none of `anyOf`, `allOf`, `oneOf`, `not`,
`properties`; it has no type when the bag declares no type and contains one of
them; and it carries the declared type when the bag declares one (a type name,
or any truthy value). -/
theorem prop_infers_type (d : Document) (name : String) (a b c : Obj)
    (ha : (a.get "$ref").truthy = false) (hb : (b.get "$ref").truthy = false)
    (hc : (c.get "$ref").truthy = false)
    (hat : a.get "type" = JsVal.undefined) (hbt : b.get "type" = JsVal.undefined)
    (hnone : ∀ k ∈ combiningKeywords, a.has k = false)
    (hsome : ∃ k ∈ combiningKeywords, b.has k = true)
    (hct : (c.get "type").truthy = true) :
    (∃ e, Appends d (d.prop name (.plain a)) e ∧ e.name = name ∧ e.get "type" = .str "string") ∧
    (∃ e, Appends d (d.prop name (.plain b)) e ∧ e.name = name ∧ e.attrs.has "type" = false) ∧
    (∃ e, Appends d (d.prop name (.plain c)) e ∧ e.name = name ∧ e.get "type" = c.get "type") := by
  obtain ⟨ta, happ_a⟩ := prop_plain_appends d name a
  obtain ⟨tb, happ_b⟩ := prop_plain_appends d name b
  obtain ⟨tc, happ_c⟩ := prop_plain_appends d name c
  refine ⟨⟨_, happ_a, buildEntry_name _ _ _, ?_⟩, ⟨_, happ_b, buildEntry_name _ _ _, ?_⟩,
    ⟨_, happ_c, buildEntry_name _ _ _, ?_⟩⟩
  · rw [buildEntry_get_type _ _ _ ha, defaultedType_of_undefined a hat,
      (hasCombiningKeywords_eq_false_iff a).2 hnone]
    rfl
  · rw [buildEntry_has_type _ _ _ hb, defaultedType_of_undefined b hbt,
      (hasCombiningKeywords_eq_true_iff b).2 hsome]
    rfl
  · rw [buildEntry_get_type _ _ _ hc, defaultedType_of_truthy c hct]
    exact kept_of_truthy hct

/-- C6 at `prop('a', {})`, `prop('a', {not: {}})` and
`prop('a', {type: 'number'})`. -/
theorem prop_infers_type_witness :
    (∃ e, Appends initialState (initialState.prop "a" (.plain [])) e ∧ e.name = "a" ∧
      e.get "type" = .str "string") ∧
    (∃ e, Appends initialState (initialState.prop "a" (.plain [("not", .obj [])])) e ∧
      e.name = "a" ∧ e.attrs.has "type" = false) ∧
    (∃ e, Appends initialState (initialState.prop "a" (.plain [("type", .str "number")])) e ∧
      e.name = "a" ∧ e.get "type" = .str "number") :=
  prop_infers_type initialState "a" [] [("not", .obj [])] [("type", .str "number")]
    rfl rfl rfl rfl rfl (by decide) ⟨"not", by decide, rfl⟩ rfl

/-- C7: for every document, every name and every plain attributes bag with
neither `$id` nor a reference, `definition(name, attributes)` appends exactly
one entry to `definitions`, with that name and `$id` equal to `#definitions/`
followed by the name, and leaves every other field as it is; and
`prop(name, attributes)` without the definition marker appends exactly one
entry to `properties`, with `$id` equal to `#properties/` followed by the name,
and leaves every other field as it is. -/
theorem definition_and_prop_append (d : Document) (name : String) (a b : Obj)
    (ha : a.get "$id" = JsVal.undefined) (har : (a.get "$ref").truthy = false)
    (hb : b.get "$id" = JsVal.undefined) (hbr : (b.get "$ref").truthy = false)
    (hbd : (b.get "def").truthy = false) :
    (∃ e, d.definition name a = { d with definitions := d.definitions ++ [e] } ∧
      e.name = name ∧ e.get "$id" = .str ("#definitions/" ++ name)) ∧
    (∃ e, d.prop name (.plain b) = { d with properties := d.properties ++ [e] } ∧
      e.name = name ∧ e.get "$id" = .str ("#properties/" ++ name)) := by
  have ha' : (a.set "def" (.bool true)).get "$id" = JsVal.undefined := by
    rw [Obj.get_set_of_ne _ _ (by decide)]; exact ha
  have har' : ((a.set "def" (.bool true)).get "$ref").truthy = false := by
    rw [Obj.get_set_of_ne _ _ (by decide)]; exact har
  refine ⟨⟨buildEntry "definitions" name (a.set "def" (.bool true)), ?_, buildEntry_name _ _ _, ?_⟩,
    ⟨buildEntry "properties" name b, prop_plain_of_not_def d name b hbd, buildEntry_name _ _ _, ?_⟩⟩
  · exact prop_plain_of_def d name _ (by rw [Obj.get_set_self]; rfl)
  · rw [buildEntry_get_id _ _ _ har', kept_defaultedId_definitions name _ ha']
  · rw [buildEntry_get_id _ _ _ hbr, kept_defaultedId_properties name _ hb]

/-- C7 at `definition('d', {})` and `prop('d', {})` on the empty builder. -/
theorem definition_and_prop_append_witness :
    (initialState.definition "d" []).definitions =
      [{ name := "d", attrs := [("type", .str "string"), ("$id", .str "#definitions/d")] }] ∧
    (initialState.definition "d" []).properties = [] ∧
    (∃ e, initialState.prop "d" (.plain []) =
        { initialState with properties := initialState.properties ++ [e] } ∧
      e.name = "d" ∧ e.get "$id" = .str ("#properties/" ++ "d")) :=
  ⟨rfl, rfl, (definition_and_prop_append initialState "d" [] [] rfl rfl rfl rfl rfl).2⟩

/-- The `$id` of a nested property is not prefixed with its parent: in
`prop('a', FluentSchema().prop('b'))` the property `b` keeps the default
`#properties/b` (the comment at the default says it should be prefixed). -/
theorem nested_builder_id_not_prefixed :
    last (initialState.prop "a" (.builder (initialState.prop "b"))).properties =
      some { name := "a", attrs := [("type", .str "object"), ("$id", .str "#properties/a"),
        ("properties", .obj [("b", .obj [("type", .str "string"),
          ("$id", .str "#properties/b")])]),
        ("required", .arr [])] } := rfl

/-- C8: for every name, every non-empty reference `r` and every attributes
bag with `$ref = r`, whatever else it holds, the entry appended by
`prop(name, attributes)` is exactly `{name, $ref: r}`; and for every document
with a last property `p`, `ref(r)` returns a document whose last property is
exactly `{name: p.name, $ref: r}`, with none of the other attributes of `p`. -/
theorem reference_entry_is_bare (d d' : Document) (name r : String) (a : Obj) (p : Entry)
    (hr : r ≠ "") (ha : a.get "$ref" = JsVal.str r) (hp : last d'.properties = some p) :
    Appends d (d.prop name (.plain a)) { name := name, attrs := [("$ref", .str r)] } ∧
    ∃ s, d'.ref (.str r) = .ok s ∧
      last s.properties = some { name := p.name, attrs := [("$ref", .str r)] } := by
  have hrt : (JsVal.str r).truthy = true := (JsVal.truthy_str r).2 hr
  constructor
  · obtain ⟨target, h⟩ := prop_plain_appends d name a
    rw [buildEntry_of_ref _ _ _ (by rw [ha]; exact hrt), ha] at h
    exact h
  · refine ⟨d'.prop p.name (.plain [("$ref", .str r)]), ?_, ?_⟩
    · simp [Document.ref, hp]
    · rw [prop_plain_last d' p.name [("$ref", .str r)] rfl,
        buildEntry_of_ref _ _ _ (by exact hrt)]
      rfl

/-- C8 at `prop('a', {$ref: '#/definitions/d', title: 't'})` on the empty
builder, and at `ref('#/definitions/d')` after `prop('b')`. -/
theorem reference_entry_is_bare_witness :
    Appends initialState
      (initialState.prop "a" (.plain [("$ref", .str "#/definitions/d"), ("title", .str "t")]))
      { name := "a", attrs := [("$ref", .str "#/definitions/d")] } ∧
    ∃ s, (initialState.prop "b").ref (.str "#/definitions/d") = .ok s ∧
      last s.properties = some { name := "b", attrs := [("$ref", .str "#/definitions/d")] } :=
  reference_entry_is_bare initialState (initialState.prop "b") "a" "#/definitions/d"
    [("$ref", .str "#/definitions/d"), ("title", .str "t")]
    { name := "b", attrs := [("type", .str "string"), ("$id", .str "#properties/b")] }
    (by decide) rfl rfl

/-- C9: for every document, `not()` fails exactly when the `properties`
sequence is empty, whatever `definitions` holds; there is no other failure,
and the error is the PreconditionError with the message
`'not' can be applied only to a prop`. -/
theorem not_fails_iff_no_property (d : Document) :
    ((∃ e, d.not = .error e) ↔ d.properties = []) ∧
    (d.not = .error .notWithoutProp ↔ d.properties = []) ∧
    BuilderError.notWithoutProp.kind = ErrorKind.preconditionError ∧
    BuilderError.notWithoutProp.message = "\x27not\x27 can be applied only to a prop" ∧
    (initialState.definition "d").not = .error .notWithoutProp := by
  have key : ∀ e, d.not = .error e → d.properties = [] := by
    intro e he
    cases hl : last d.properties with
    | none => exact (last_eq_none_iff _).1 hl
    | some p =>
      obtain ⟨ys, hys⟩ := exists_append_of_last hl
      rw [not_of_last d ys p hys] at he
      cases he
  exact ⟨⟨fun ⟨e, he⟩ => key e he, fun h => ⟨_, not_of_no_property d h⟩⟩,
    ⟨key _, not_of_no_property d⟩, rfl, rfl, rfl⟩

/-- C10, refuted as stated: the last property of
`prop('x', {$ref: '#/definitions/d'}).not()` is the reference entry itself and
has no `not` key. -/
theorem not_leaves_reference_entry :
    ∃ d, (initialState.prop "x" (.plain [("$ref", .str "#/definitions/d")])).not = .ok d ∧
      last d.properties = some { name := "x", attrs := [("$ref", .str "#/definitions/d")] } ∧
      (last d.properties).map (fun q => q.get "not") = some JsVal.undefined :=
  ⟨_, rfl, rfl, rfl⟩

/-- C10, amended: for every document with a last property `p` that carries
neither a reference nor the definition marker, `not()` returns a document whose
last property has the name of `p`, holds `not` equal to the empty object, and
has no `type`; and the last property of `prop('x').not()` on the empty builder
has name `'x'` and `not = {}`. -/
theorem not_on_last_property (d : Document) (p : Entry)
    (hp : last d.properties = some p)
    (href : (p.get "$ref").truthy = false) (hdef : (p.get "def").truthy = false) :
    (∃ d' q, d.not = .ok d' ∧ last d'.properties = some q ∧ q.name = p.name ∧
      q.get "not" = .obj [] ∧ q.attrs.has "type" = false) ∧
    (∃ d' q, (initialState.prop "x").not = .ok d' ∧ last d'.properties = some q ∧
      q.name = "x" ∧ q.get "not" = .obj []) := by
  refine ⟨?_, _, _, rfl, rfl, rfl, rfl⟩
  obtain ⟨ys, hys⟩ := exists_append_of_last hp
  have hd : (((p.attrs.erase "type").set "not" (.obj [])).get "def").truthy = false := by
    rw [Obj.get_set_of_ne _ _ (by decide), Obj.get_erase_of_ne _ (by decide)]; exact hdef
  have hr : (((p.attrs.erase "type").set "not" (.obj [])).get "$ref").truthy = false := by
    rw [Obj.get_set_of_ne _ _ (by decide), Obj.get_erase_of_ne _ (by decide)]; exact href
  have ht : ((p.attrs.erase "type").set "not" (.obj [])).get "type" = JsVal.undefined := by
    rw [Obj.get_set_of_ne _ _ (by decide), Obj.get_erase_self]
  have hk : hasCombiningKeywords ((p.attrs.erase "type").set "not" (.obj [])) = true := by
    simp [hasCombiningKeywords, Obj.has_set_self]
  refine ⟨_, buildEntry "properties" p.name ((p.attrs.erase "type").set "not" (.obj [])),
    not_of_last d ys p hys, prop_plain_last _ _ _ hd, buildEntry_name _ _ _, ?_, ?_⟩
  · rw [buildEntry_get_not _ _ _ hr, Obj.get_set_self]; rfl
  · rw [buildEntry_has_type _ _ _ hr, defaultedType_of_undefined _ ht, hk]; rfl

/-- C10, amended, at `prop('x')`: the last property of `prop('x').not()` is
`{name: 'x', $id: '#properties/x', not: {}}`. -/
theorem not_on_last_property_witness :
    ∃ d' q, (initialState.prop "x").not = .ok d' ∧ last d'.properties = some q ∧
      q.name = "x" ∧ q.get "not" = .obj [] ∧ q.attrs.has "type" = false :=
  (not_on_last_property (initialState.prop "x")
    { name := "x", attrs := [("type", .str "string"), ("$id", .str "#properties/x")] }
    rfl rfl rfl).1

/-! ## Lemmas on `anyOf` and `required` -/

theorem anyOf_of_last (d o : Document) (p : Entry) (hp : last d.properties = some p) :
    d.anyOf o = .ok (d.prop p.name (.plain
      (if (p.get "not").truthy then
        ((p.attrs.erase "not").erase "type").set "not"
          (.obj [("anyOf", .arr (Obj.values (flat o.properties)))])
      else
        ((p.attrs.erase "not").erase "type").set "anyOf"
          (.arr (Obj.values (flat o.properties)))))) := by
  simp [Document.anyOf, hp, valueOf_get_properties]

theorem anyOf_of_no_property (d o : Document) (h : d.properties = []) :
    d.anyOf o = .error .typeError := by
  simp [Document.anyOf, h, last]

theorem required_of_last (d : Document) (p : Entry) (hp : last d.properties = some p) :
    d.required_ = .ok { d with required := d.required ++ [p.name] } := by
  simp [Document.required_, hp]

theorem required_of_no_property (d : Document) (h : d.properties = []) :
    d.required_ = .error .typeError := by
  simp [Document.required_, h, last]

/-- The entry that `anyOf` derives from a last property `p` without `not`. -/
theorem anyOf_entry (p : Entry) (values : JsVal) (hv : values.truthy = true)
    (href : (p.get "$ref").truthy = false) :
    (buildEntry "properties" p.name
        (((p.attrs.erase "not").erase "type").set "anyOf" values)).get "anyOf" = values ∧
    (buildEntry "properties" p.name
        (((p.attrs.erase "not").erase "type").set "anyOf" values)).attrs.has "type" = false := by
  have hr : ((((p.attrs.erase "not").erase "type").set "anyOf" values).get "$ref").truthy
      = false := by
    rw [Obj.get_set_of_ne _ _ (by decide), Obj.get_erase_of_ne _ (by decide),
      Obj.get_erase_of_ne _ (by decide)]
    exact href
  have ht : (((p.attrs.erase "not").erase "type").set "anyOf" values).get "type"
      = JsVal.undefined := by
    rw [Obj.get_set_of_ne _ _ (by decide), Obj.get_erase_self]
  have hk : hasCombiningKeywords (((p.attrs.erase "not").erase "type").set "anyOf" values)
      = true := by
    simp [hasCombiningKeywords, Obj.has_set_self]
  constructor
  · rw [buildEntry_get_anyOf _ _ _ hr, Obj.get_set_self]
    exact kept_of_truthy hv
  · rw [buildEntry_has_type _ _ _ hr, defaultedType_of_undefined _ ht, hk]; rfl

/-- The entry that `anyOf` derives from a last property `p` with a `not`. -/
theorem anyOf_entry_not (p : Entry) (values : JsVal) (hv : values.truthy = true)
    (href : (p.get "$ref").truthy = false) :
    (buildEntry "properties" p.name
        (((p.attrs.erase "not").erase "type").set "not" values)).get "not" = values ∧
    (buildEntry "properties" p.name
        (((p.attrs.erase "not").erase "type").set "not" values)).attrs.has "type" = false := by
  have hr : ((((p.attrs.erase "not").erase "type").set "not" values).get "$ref").truthy
      = false := by
    rw [Obj.get_set_of_ne _ _ (by decide), Obj.get_erase_of_ne _ (by decide),
      Obj.get_erase_of_ne _ (by decide)]
    exact href
  have ht : (((p.attrs.erase "not").erase "type").set "not" values).get "type"
      = JsVal.undefined := by
    rw [Obj.get_set_of_ne _ _ (by decide), Obj.get_erase_self]
  have hk : hasCombiningKeywords (((p.attrs.erase "not").erase "type").set "not" values)
      = true := by
    simp [hasCombiningKeywords, Obj.has_set_self]
  constructor
  · rw [buildEntry_get_not _ _ _ hr, Obj.get_set_self]
    exact kept_of_truthy hv
  · rw [buildEntry_has_type _ _ _ hr, defaultedType_of_undefined _ ht, hk]; rfl

theorem anyOf_bag_def (p : Entry) (key : String) (values : JsVal) (hk : key ≠ "def") :
    (((p.attrs.erase "not").erase "type").set key values).get "def" = p.get "def" := by
  rw [Obj.get_set_of_ne _ _ (Ne.symm hk), Obj.get_erase_of_ne _ (by decide),
    Obj.get_erase_of_ne _ (by decide)]
  rfl

/-! ## The claims C11 to C14 -/

/-! ### The order of `Object.entries` -/

theorem Obj.indexed_foldl_of_no_index (o : Obj) (acc : List (Nat × String × JsVal))
    (h : ∀ kv ∈ o, Obj.arrayIndex? kv.1 = none) :
    o.foldl (fun acc kv =>
      match Obj.arrayIndex? kv.1 with
      | some n => Obj.insertIndexed n kv acc
      | none => acc) acc = acc := by
  induction o generalizing acc with
  | nil => rfl
  | cons kv rest ih =>
    have h1 : Obj.arrayIndex? kv.1 = none := h kv (List.mem_cons_self _ _)
    simp only [List.foldl_cons, h1]
    exact ih acc (fun kv' hkv' => h kv' (List.mem_cons_of_mem _ hkv'))

theorem Obj.entries_of_no_index (o : Obj) (h : ∀ kv ∈ o, Obj.arrayIndex? kv.1 = none) :
    Obj.entries o = o := by
  unfold Obj.entries Obj.indexed
  rw [Obj.indexed_foldl_of_no_index o [] h]
  simp only [List.map_nil, List.nil_append]
  apply List.filter_eq_self.2
  intro kv hkv
  rw [h kv hkv]; rfl

theorem Obj.values_of_no_index (o : Obj) (h : ∀ kv ∈ o, Obj.arrayIndex? kv.1 = none) :
    Obj.values o = o.map Prod.snd := by
  rw [Obj.values, Obj.entries_of_no_index o h]

theorem Obj.mem_set {o : Obj} {k : String} {v : JsVal} {kv : String × JsVal}
    (h : kv ∈ Obj.set o k v) : kv ∈ o ∨ kv = (k, v) := by
  induction o with
  | nil => simp [Obj.set] at h; exact .inr h
  | cons kv' rest ih =>
    obtain ⟨k', v'⟩ := kv'
    by_cases hk : k' = k
    · simp [Obj.set, hk] at h
      rcases h with h | h
      · exact .inr h
      · exact .inl (List.mem_cons_of_mem _ h)
    · simp [Obj.set, hk] at h
      rcases h with h | h
      · exact .inl (by rw [h]; exact List.mem_cons_self _ _)
      · rcases ih h with h | h
        · exact .inl (List.mem_cons_of_mem _ h)
        · exact .inr h

theorem mem_flat_foldl {xs : List Entry} {acc : Obj} {kv : String × JsVal}
    (h : kv ∈ xs.foldl (fun memo prop => memo.set prop.name (.obj prop.attrs)) acc) :
    kv ∈ acc ∨ ∃ e ∈ xs, e.name = kv.1 := by
  induction xs generalizing acc with
  | nil => exact .inl h
  | cons e rest ih =>
    rcases ih h with h | ⟨e', he', hn⟩
    · rcases Obj.mem_set h with h | h
      · exact .inl h
      · exact .inr ⟨e, List.mem_cons_self _ _, by rw [h]⟩
    · exact .inr ⟨e', List.mem_cons_of_mem _ he', hn⟩

theorem mem_flat {xs : List Entry} {kv : String × JsVal} (h : kv ∈ flat xs) :
    ∃ e ∈ xs, e.name = kv.1 := by
  rcases mem_flat_foldl h with h | h
  · cases h
  · exact h

theorem Obj.set_of_not_mem (o : Obj) (k : String) (v : JsVal) (h : ∀ kv ∈ o, kv.1 ≠ k) :
    Obj.set o k v = o ++ [(k, v)] := by
  induction o with
  | nil => rfl
  | cons kv' rest ih =>
    obtain ⟨k', v'⟩ := kv'
    have hk : k' ≠ k := h (k', v') (List.mem_cons_self _ _)
    simp [Obj.set, hk, ih (fun kv hkv => h kv (List.mem_cons_of_mem _ hkv))]

theorem flat_foldl_of_nodup (xs : List Entry) (acc : Obj)
    (hacc : ∀ kv ∈ acc, ∀ e ∈ xs, kv.1 ≠ e.name) (h : (xs.map fun e => e.name).Nodup) :
    xs.foldl (fun memo prop => memo.set prop.name (.obj prop.attrs)) acc =
      acc ++ xs.map fun e => (e.name, JsVal.obj e.attrs) := by
  induction xs generalizing acc with
  | nil => simp
  | cons e rest ih =>
    rw [List.map_cons, List.nodup_cons] at h
    rw [List.foldl_cons,
      Obj.set_of_not_mem acc e.name _ (fun kv hkv => hacc kv hkv e (List.mem_cons_self _ _)),
      ih _ ?_ h.2]
    · simp
    · intro kv hkv e' he'
      rcases List.mem_append.1 hkv with hkv | hkv
      · exact hacc kv hkv e' (List.mem_cons_of_mem _ he')
      · rw [List.mem_singleton.1 hkv]
        intro heq
        exact h.1 (List.mem_map.2 ⟨e', he', heq.symm⟩)

theorem flat_of_nodup (xs : List Entry) (h : (xs.map fun e => e.name).Nodup) :
    flat xs = xs.map fun e => (e.name, JsVal.obj e.attrs) := by
  have := flat_foldl_of_nodup xs [] (fun kv hkv => by cases hkv) h
  simpa [flat] using this

theorem buildEntry_has_not (target name : String) (a : Obj) (h : (a.get "$ref").truthy = false) :
    (buildEntry target name a).attrs.has "not" = (a.get "not").truthy := by
  rw [buildEntry_attrs _ _ _ h]
  simp [Obj.has_append, Obj.has_pick]

theorem buildEntry_has_anyOf (target name : String) (a : Obj) (h : (a.get "$ref").truthy = false) :
    (buildEntry target name a).attrs.has "anyOf" = (a.get "anyOf").truthy := by
  rw [buildEntry_attrs _ _ _ h]
  simp [Obj.has_append, Obj.has_pick]

/-- The keys that are array indices come first in `Object.entries`, in
numeric order: `'10'`, `'b'`, `'9'`, `'01'` are listed as `9`, `10`, `b`, `01`. -/
theorem values_lists_indices_first :
    Obj.values [("10", .num 10), ("b", .num 0), ("9", .num 9), ("01", .num 1)] =
      [.num 9, .num 10, .num 0, .num 1] := rfl

/-- C11, refuted as stated: for `o = prop('b').prop('1')` the properties of
`o` were inserted as `b`, `1`, and `prop('x').anyOf(o)` stores the fragment of
`1` before the fragment of `b`. -/
theorem anyOf_lists_index_names_first :
    ∃ s q, (initialState.prop "x").anyOf ((initialState.prop "b").prop "1") = .ok s ∧
      last s.properties = some q ∧
      ((initialState.prop "b").prop "1").properties.map (fun e => e.name) = ["b", "1"] ∧
      q.get "anyOf" = .arr
        [.obj [("type", .str "string"), ("$id", .str "#properties/1")],
         .obj [("type", .str "string"), ("$id", .str "#properties/b")]] ∧
      q.get "anyOf" ≠ .arr
        [.obj [("type", .str "string"), ("$id", .str "#properties/b")],
         .obj [("type", .str "string"), ("$id", .str "#properties/1")]] := by
  refine ⟨_, _, rfl, rfl, rfl, rfl, ?_⟩
  intro h
  have h' : (JsVal.arr
      [.obj [("type", .str "string"), ("$id", .str "#properties/1")],
       .obj [("type", .str "string"), ("$id", .str "#properties/b")]]) = .arr
      [.obj [("type", .str "string"), ("$id", .str "#properties/b")],
       .obj [("type", .str "string"), ("$id", .str "#properties/1")]] := h
  simp at h'

/-- C11, amended: for every document with a last property `p` that is not a
reference entry, and every other builder `o` none of whose property names is
an array index, `anyOf(o)` returns a document whose last property has the name
of `p` and no type; when `p` carries no `not`, that entry holds `anyOf` equal
to the list of the values of `o.valueOf().properties` in insertion order, and
no `not`; when `p` carries a `not`, it holds `not = {anyOf: <that list>}`
instead, and under `anyOf` only what `p` had there.  When the names of a
builder `u` are moreover distinct, the list is that of the entries of `u`, in
their order, each without its name.  (Entries are property entries: they
carry no definition marker.) -/
theorem anyOf_on_last_property (d d' o u : Document) (p p' : Entry)
    (hp : last d.properties = some p) (href : (p.get "$ref").truthy = false)
    (hdef : (p.get "def").truthy = false) (hnot : (p.get "not").truthy = false)
    (hp' : last d'.properties = some p') (href' : (p'.get "$ref").truthy = false)
    (hdef' : (p'.get "def").truthy = false) (hnot' : (p'.get "not").truthy = true)
    (ho : ∀ e ∈ o.properties, Obj.arrayIndex? e.name = none)
    (hu : ∀ e ∈ u.properties, Obj.arrayIndex? e.name = none)
    (hnodup : (u.properties.map fun e => e.name).Nodup) :
    o.valueOf.get "properties" = .obj (flat o.properties) ∧
    (∃ s q, d.anyOf o = .ok s ∧ last s.properties = some q ∧ q.name = p.name ∧
      q.attrs.has "type" = false ∧
      q.get "anyOf" = .arr ((flat o.properties).map Prod.snd) ∧
      q.attrs.has "not" = false) ∧
    (∃ s q, d'.anyOf o = .ok s ∧ last s.properties = some q ∧ q.name = p'.name ∧
      q.attrs.has "type" = false ∧
      q.get "not" = .obj [("anyOf", .arr ((flat o.properties).map Prod.snd))] ∧
      q.attrs.has "anyOf" = (p'.get "anyOf").truthy) ∧
    (∃ s q, d.anyOf u = .ok s ∧ last s.properties = some q ∧ q.name = p.name ∧
      q.get "anyOf" = .arr (u.properties.map fun e => JsVal.obj e.attrs)) := by
  have hvals : ∀ w : Document, (∀ e ∈ w.properties, Obj.arrayIndex? e.name = none) →
      Obj.values (flat w.properties) = (flat w.properties).map Prod.snd := by
    intro w hw
    apply Obj.values_of_no_index
    intro kv hkv
    obtain ⟨e, he, hn⟩ := mem_flat hkv
    rw [← hn]; exact hw e he
  have hd : ∀ values, ((((p.attrs.erase "not").erase "type").set "anyOf" values).get
      "def").truthy = false := by
    intro values; rw [anyOf_bag_def p "anyOf" _ (by decide)]; exact hdef
  have hr : ∀ values, ((((p.attrs.erase "not").erase "type").set "anyOf" values).get
      "$ref").truthy = false := by
    intro values
    rw [Obj.get_set_of_ne _ _ (by decide), Obj.get_erase_of_ne _ (by decide),
      Obj.get_erase_of_ne _ (by decide)]
    exact href
  have hs : ∀ w : Document, d.anyOf w = .ok (d.prop p.name (.plain
      (((p.attrs.erase "not").erase "type").set "anyOf"
        (.arr (Obj.values (flat w.properties)))))) := by
    intro w
    have h := anyOf_of_last d w p hp
    rw [hnot, if_neg (by decide)] at h
    exact h
  refine ⟨valueOf_get_properties o, ?_, ?_, ?_⟩
  · have e := anyOf_entry p (.arr (Obj.values (flat o.properties))) rfl href
    refine ⟨_, _, hs o, prop_plain_last d _ _ (hd _), buildEntry_name _ _ _, e.2, ?_, ?_⟩
    · rw [e.1, hvals o ho]
    · rw [buildEntry_has_not _ _ _ (hr _), Obj.get_set_of_ne _ _ (by decide),
        Obj.get_erase_of_ne _ (by decide), Obj.get_erase_self]
      rfl
  · have e := anyOf_entry_not p' (.obj [("anyOf", .arr (Obj.values (flat o.properties)))]) rfl
      href'
    have h := anyOf_of_last d' o p' hp'
    rw [hnot', if_pos rfl] at h
    have hr' : ((((p'.attrs.erase "not").erase "type").set "not"
        (.obj [("anyOf", .arr (Obj.values (flat o.properties)))])).get "$ref").truthy
        = false := by
      rw [Obj.get_set_of_ne _ _ (by decide), Obj.get_erase_of_ne _ (by decide),
        Obj.get_erase_of_ne _ (by decide)]
      exact href'
    refine ⟨_, _, h, ?_, buildEntry_name _ _ _, e.2, ?_, ?_⟩
    · exact prop_plain_last d' _ _ (by rw [anyOf_bag_def p' "not" _ (by decide)]; exact hdef')
    · rw [e.1, hvals o ho]
    · rw [buildEntry_has_anyOf _ _ _ hr', Obj.get_set_of_ne _ _ (by decide),
        Obj.get_erase_of_ne _ (by decide), Obj.get_erase_of_ne _ (by decide)]
      rfl
  · have e := anyOf_entry p (.arr (Obj.values (flat u.properties))) rfl href
    refine ⟨_, _, hs u, prop_plain_last d _ _ (hd _), buildEntry_name _ _ _, ?_⟩
    rw [e.1, hvals u hu, flat_of_nodup u.properties hnodup, List.map_map]
    rfl

/-- C11, amended, at `prop('x').anyOf(o)` and, on the document of
`prop('x').not()`, `anyOf(o)`, for `o = prop('a').prop('b', {type: 'number'})`. -/
theorem anyOf_on_last_property_witness :
    (∃ s q, (initialState.prop "x").anyOf
        ((initialState.prop "a").prop "b" (.plain [("type", .str "number")])) = .ok s ∧
      last s.properties = some q ∧ q.name = "x" ∧
      q.get "anyOf" = .arr
        [.obj [("type", .str "string"), ("$id", .str "#properties/a")],
         .obj [("type", .str "number"), ("$id", .str "#properties/b")]]) ∧
    (∃ s q, ({ initialState with properties :=
          [{ name := "x", attrs := [("$id", .str "#properties/x"), ("not", .obj [])] }] } :
          Document).anyOf
        ((initialState.prop "a").prop "b" (.plain [("type", .str "number")])) = .ok s ∧
      last s.properties = some q ∧ q.name = "x" ∧ q.attrs.has "type" = false ∧
      q.get "not" = .obj [("anyOf", .arr ((flat ((initialState.prop "a").prop "b"
        (.plain [("type", .str "number")])).properties).map Prod.snd))] ∧
      q.attrs.has "anyOf" = false) :=
  have h := anyOf_on_last_property (initialState.prop "x")
    { initialState with properties :=
        [{ name := "x", attrs := [("$id", .str "#properties/x"), ("not", .obj [])] }] }
    ((initialState.prop "a").prop "b" (.plain [("type", .str "number")]))
    ((initialState.prop "a").prop "b" (.plain [("type", .str "number")]))
    { name := "x", attrs := [("type", .str "string"), ("$id", .str "#properties/x")] }
    { name := "x", attrs := [("$id", .str "#properties/x"), ("not", .obj [])] }
    rfl rfl rfl rfl rfl rfl rfl rfl
    (fun e he => by
      rcases List.mem_cons.1 he with rfl | he
      · rfl
      · rcases List.mem_cons.1 he with rfl | he
        · rfl
        · cases he)
    (fun e he => by
      rcases List.mem_cons.1 he with rfl | he
      · rfl
      · rcases List.mem_cons.1 he with rfl | he
        · rfl
        · cases he)
    (by decide)
  ⟨h.2.2.2, h.2.2.1⟩

/-- C12: for every document with a last property `p`, `required()` returns the
document with `p.name` added at the end of `required` and nothing else
changed; names are not deduplicated, so a second `required()` adds `p.name`
again: `prop('x', {type:'number'}).required()` has `required = ['x']` and a
second `required()` gives `['x','x']`. -/
theorem required_appends_last_name (d : Document) (p : Entry)
    (hp : last d.properties = some p) :
    d.required_ = .ok { d with required := d.required ++ [p.name] } ∧
    (d.required_.bind fun s => s.required_) =
      .ok { d with required := d.required ++ [p.name, p.name] } ∧
    (∃ s, (initialState.prop "x" (.plain [("type", .str "number")])).required_ = .ok s ∧
      s.required = ["x"]) ∧
    (∃ s, ((initialState.prop "x" (.plain [("type", .str "number")])).required_.bind
        fun s => s.required_) = .ok s ∧ s.required = ["x", "x"]) := by
  have h1 := required_of_last d p hp
  have h2 := required_of_last { d with required := d.required ++ [p.name] } p hp
  refine ⟨h1, ?_, ⟨_, rfl, rfl⟩, ⟨_, rfl, rfl⟩⟩
  rw [h1]
  simp only [Except.bind]
  rw [h2]
  simp

/-- C12 at `prop('x', {type:'number'})`: one `required()` gives `['x']`. -/
theorem required_appends_last_name_witness :
    (initialState.prop "x" (.plain [("type", .str "number")])).required_ =
      .ok { initialState.prop "x" (.plain [("type", .str "number")]) with required := ["x"] } :=
  (required_appends_last_name (initialState.prop "x" (.plain [("type", .str "number")]))
    { name := "x", attrs := [("type", .str "number"), ("$id", .str "#properties/x")] } rfl).1

/-- C13, at the failing input `prop('a').minimum(5)`: the property `'a'` has
type `'string'`, and the message of the error is
`'a' as 'number' doesn't accept 'minimum' option`: it names the property and
the option, and the type of the option instead of the type of the property. -/
theorem mismatch_message_names_option_type :
    (initialState.prop "a").minimum (.num 5) = .error (.optionNotAccepted "a" "number" "minimum") ∧
    (BuilderError.optionNotAccepted "a" "number" "minimum").message =
      "\x27a\x27 as \x27number\x27 doesn\x27t accept \x27minimum\x27 option" ∧
    mentions (BuilderError.optionNotAccepted "a" "number" "minimum").message "\x27a\x27" = true ∧
    mentions (BuilderError.optionNotAccepted "a" "number" "minimum").message "minimum" = true ∧
    mentions (BuilderError.optionNotAccepted "a" "number" "minimum").message "string" = false :=
  ⟨rfl, by decide, by decide, by decide, by decide⟩

/-- C14: for every document and every argument, each of `if`, `then` and
`else` fails with a NotImplemented error, so none of them returns a builder. -/
theorem conditionals_not_implemented (d : Document) (arguments : List JsVal) :
    d.if_ arguments = .error (.notImplemented "if") ∧
    d.then_ arguments = .error (.notImplemented "then") ∧
    d.else_ arguments = .error (.notImplemented "else") ∧
    (∀ keyword, (BuilderError.notImplemented keyword).kind = ErrorKind.notImplemented) ∧
    (BuilderError.notImplemented "if").message = "\x27if\x27 isn\x27t implemented yet" ∧
    ¬ (∃ s, d.if_ arguments = .ok s ∨ d.then_ arguments = .ok s ∨ d.else_ arguments = .ok s) := by
  refine ⟨rfl, rfl, rfl, fun _ => rfl, by decide, ?_⟩
  rintro ⟨s, h | h | h⟩ <;> cases h

/-! ## Lemmas on refinement -/

theorem appendsRefined_error (d : Document) (p : Entry) (e : BuilderError) :
    AppendsRefined d p (.error e) := by
  intro s hs; cases hs

theorem appendsRefined_prop (d : Document) (p : Entry) (a : Obj)
    (h : (a.get "def").truthy = false) :
    AppendsRefined d p (.ok (d.prop p.name (.plain a))) := by
  intro s hs
  cases hs
  exact ⟨buildEntry "properties" p.name a, buildEntry_name _ _ _, prop_plain_of_not_def d _ a h⟩

theorem appendsRefined_setMeta (d : Document) (p : Entry) (key : String) (v : JsVal)
    (type : String) (hp : last d.properties = some p) (hdef : (p.get "def").truthy = false)
    (hk : key ≠ "def") : AppendsRefined d p (setMeta d key v type) := by
  by_cases ht : p.get "type" = JsVal.str type
  · rw [setMeta_of_match d key v type p hp ht]
    exact appendsRefined_prop d p _ (by rw [Obj.get_set_of_ne _ _ (Ne.symm hk)]; exact hdef)
  · rw [setMeta_of_mismatch d key v type p hp ht]
    exact appendsRefined_error _ _ _

theorem appendsRefined_anyOf (d o : Document) (p : Entry)
    (hp : last d.properties = some p) (hdef : (p.get "def").truthy = false) :
    AppendsRefined d p (d.anyOf o) := by
  rw [anyOf_of_last d o p hp]
  apply appendsRefined_prop
  split
  · rw [anyOf_bag_def p "not" _ (by decide)]; exact hdef
  · rw [anyOf_bag_def p "anyOf" _ (by decide)]; exact hdef

theorem appendsRefined_ref (d : Document) (p : Entry) (v : JsVal)
    (hp : last d.properties = some p) : AppendsRefined d p (d.ref v) := by
  have : d.ref v = .ok (d.prop p.name (.plain [("$ref", v)])) := by simp [Document.ref, hp]
  rw [this]
  exact appendsRefined_prop d p _ rfl

/-! ## What a refinement carries over -/

theorem buildEntry_get_properties (target name : String) (a : Obj) (h : (a.get "$ref").truthy = false) :
    (buildEntry target name a).get "properties" = kept (a.get "properties") := by
  rw [Entry.get, buildEntry_attrs _ _ _ h]
  simp only [Obj.get_append, Obj.has_append, Obj.get_pick, Obj.has_pick, kept]
  by_cases hv : (a.get "properties").truthy = true <;> simp [hv]

theorem buildEntry_get_required (target name : String) (a : Obj) (h : (a.get "$ref").truthy = false) :
    (buildEntry target name a).get "required" = kept (a.get "required") := by
  rw [Entry.get, buildEntry_attrs _ _ _ h]
  simp only [Obj.get_append, Obj.has_append, Obj.get_pick, Obj.has_pick, kept]
  by_cases hv : (a.get "required").truthy = true <;> simp [hv]

theorem buildEntry_get_oneOf (target name : String) (a : Obj) (h : (a.get "$ref").truthy = false) :
    (buildEntry target name a).get "oneOf" = kept (a.get "oneOf") := by
  rw [Entry.get, buildEntry_attrs _ _ _ h]
  simp only [Obj.get_append, Obj.has_append, Obj.get_pick, Obj.has_pick, kept]
  by_cases hv : (a.get "oneOf").truthy = true <;> simp [hv]

theorem buildEntry_get_allOf (target name : String) (a : Obj) (h : (a.get "$ref").truthy = false) :
    (buildEntry target name a).get "allOf" = kept (a.get "allOf") := by
  rw [Entry.get, buildEntry_attrs _ _ _ h]
  simp only [Obj.get_append, Obj.has_append, Obj.get_pick, Obj.has_pick, kept]
  by_cases hv : (a.get "allOf").truthy = true <;> simp [hv]

theorem buildEntry_get_pattern (target name : String) (a : Obj) (h : (a.get "$ref").truthy = false) :
    (buildEntry target name a).get "pattern" = kept (a.get "pattern") := by
  rw [Entry.get, buildEntry_attrs _ _ _ h]
  simp only [Obj.get_append, Obj.has_append, Obj.get_pick, Obj.has_pick, kept]
  by_cases hv : (a.get "pattern").truthy = true <;> simp [hv]

theorem buildEntry_get_format (target name : String) (a : Obj) (h : (a.get "$ref").truthy = false) :
    (buildEntry target name a).get "format" = kept (a.get "format") := by
  rw [Entry.get, buildEntry_attrs _ _ _ h]
  simp only [Obj.get_append, Obj.has_append, Obj.get_pick, Obj.has_pick, kept]
  by_cases hv : (a.get "format").truthy = true <;> simp [hv]

theorem buildEntry_get_maximum (target name : String) (a : Obj) (h : (a.get "$ref").truthy = false) :
    (buildEntry target name a).get "maximum" = kept (a.get "maximum") := by
  rw [Entry.get, buildEntry_attrs _ _ _ h]
  simp only [Obj.get_append, Obj.has_append, Obj.get_pick, Obj.has_pick, kept]
  by_cases hv : (a.get "maximum").truthy = true <;> simp [hv]

theorem buildEntry_get_multipleOf (target name : String) (a : Obj) (h : (a.get "$ref").truthy = false) :
    (buildEntry target name a).get "multipleOf" = kept (a.get "multipleOf") := by
  rw [Entry.get, buildEntry_attrs _ _ _ h]
  simp only [Obj.get_append, Obj.has_append, Obj.get_pick, Obj.has_pick, kept]
  by_cases hv : (a.get "multipleOf").truthy = true <;> simp [hv]

theorem buildEntry_get_exclusiveMaximum (target name : String) (a : Obj) (h : (a.get "$ref").truthy = false) :
    (buildEntry target name a).get "exclusiveMaximum" = kept (a.get "exclusiveMaximum") := by
  rw [Entry.get, buildEntry_attrs _ _ _ h]
  simp only [Obj.get_append, Obj.has_append, Obj.get_pick, Obj.has_pick, kept]
  by_cases hv : (a.get "exclusiveMaximum").truthy = true <;> simp [hv]

theorem buildEntry_get_exclusiveMinimum (target name : String) (a : Obj) (h : (a.get "$ref").truthy = false) :
    (buildEntry target name a).get "exclusiveMinimum" = kept (a.get "exclusiveMinimum") := by
  rw [Entry.get, buildEntry_attrs _ _ _ h]
  simp only [Obj.get_append, Obj.has_append, Obj.get_pick, Obj.has_pick, kept]
  by_cases hv : (a.get "exclusiveMinimum").truthy = true <;> simp [hv]

theorem buildEntry_get_carried (target name : String) (a : Obj)
    (h : (a.get "$ref").truthy = false) (k : String) (hk : k ∈ carriedKeys) :
    (buildEntry target name a).get k = kept (a.get k) := by
  simp only [carriedKeys, List.mem_cons, List.mem_singleton, List.not_mem_nil, or_false] at hk
  rcases hk with rfl | rfl | rfl | rfl | rfl | rfl | rfl | rfl | rfl | rfl | rfl | rfl | rfl |
    rfl | rfl | rfl | rfl
  · exact buildEntry_get_title target name a h
  · exact buildEntry_get_description target name a h
  · exact buildEntry_get_properties target name a h
  · exact buildEntry_get_required target name a h
  · exact buildEntry_get_anyOf target name a h
  · exact buildEntry_get_oneOf target name a h
  · exact buildEntry_get_allOf target name a h
  · exact buildEntry_get_not target name a h
  · exact buildEntry_get_minLength target name a h
  · exact buildEntry_get_maxLength target name a h
  · exact buildEntry_get_pattern target name a h
  · exact buildEntry_get_format target name a h
  · exact buildEntry_get_minimum target name a h
  · exact buildEntry_get_maximum target name a h
  · exact buildEntry_get_multipleOf target name a h
  · exact buildEntry_get_exclusiveMaximum target name a h
  · exact buildEntry_get_exclusiveMinimum target name a h

/-- What `title(t)` does on a last property `p` of type `'string'`: the new
last property has the name, the type and the title; every key that `prop`
reads and writes under one name is carried over when its value is truthy; and
`default` is read back from the key `defaults`, which an entry does not have. -/
theorem title_carries_all_but_default (d : Document) (p : Entry) (t : JsVal)
    (hp : last d.properties = some p) (ht : p.get "type" = JsVal.str "string")
    (href : (p.get "$ref").truthy = false) (hdef : (p.get "def").truthy = false)
    (htt : t.truthy = true) :
    ∃ s q, d.title t = .ok s ∧ last s.properties = some q ∧ q.name = p.name ∧
      q.get "type" = .str "string" ∧ q.get "title" = t ∧
      q.get "default" = kept (p.get "defaults") ∧
      ∀ k ∈ carriedKeys, k ≠ "title" → q.get k = kept (p.get k) := by
  have href' : ((p.attrs.set "title" t).get "$ref").truthy = false := by
    rw [Obj.get_set_of_ne _ _ (by decide)]; exact href
  have e := refined_entry p "title" t "string" ht (by decide) href (by decide) (by decide)
  refine ⟨_, buildEntry "properties" p.name (p.attrs.set "title" t),
    setMeta_refines d "title" t "string" p hp ht hdef (by decide), last_append_singleton _ _,
    e.1, e.2.1, ?_, ?_, ?_⟩
  · rw [buildEntry_get_title _ _ _ href', Obj.get_set_self]; exact kept_of_truthy htt
  · rw [buildEntry_get_default _ _ _ href', Obj.get_set_of_ne _ _ (by decide)]; rfl
  · intro k hk hne
    rw [buildEntry_get_carried _ _ _ href' k hk, Obj.get_set_of_ne _ _ hne]; rfl

/-! ## The claims C15 to C18 -/

/-- C15, refuted as stated: `prop('a').asString().minLength(2)` on the empty
builder yields a `properties` sequence of three entries, the entry of
`prop('a')`, its copy by `asString()` and the one with `minLength`. -/
theorem refinement_keeps_old_entries :
    ∃ d, ((initialState.prop "a").asString.bind fun s => s.minLength (.num 2)) = .ok d ∧
      d.properties =
        [{ name := "a", attrs := [("type", .str "string"), ("$id", .str "#properties/a")] },
         { name := "a", attrs := [("type", .str "string"), ("$id", .str "#properties/a")] },
         { name := "a", attrs := [("type", .str "string"), ("$id", .str "#properties/a"),
            ("minLength", .num 2)] }] ∧
      d.properties.length = 3 :=
  ⟨_, rfl, rfl, rfl⟩

/-- C15, amended: for every document with a last property `p` (a property
entry, without definition marker), each refinement operation that succeeds
(`id`, `title`, `description`, `examples`, `ref`, `as*`, `minLength`,
`maxLength`, `minimum`, `anyOf`) returns the document with one entry named
like `p` appended to `properties`: the sequence is one longer than the
input's, and every entry of the input, its last property included, is
unchanged at its position.  In particular `prop('a').asString().minLength(2)`
on the empty builder yields a `properties` sequence of three entries, which
`valueOf()` flattens to the one property `a`. -/
theorem refinement_appends (d o : Document) (p : Entry) (v : JsVal) (t : String)
    (hp : last d.properties = some p) (hdef : (p.get "def").truthy = false) :
    AppendsRefined d p (d.id v) ∧
    AppendsRefined d p (d.title v) ∧
    AppendsRefined d p (d.description v) ∧
    AppendsRefined d p (d.examples v) ∧
    AppendsRefined d p (d.ref v) ∧
    AppendsRefined d p (d.as t) ∧
    AppendsRefined d p d.asString ∧
    AppendsRefined d p d.asNumber ∧
    AppendsRefined d p d.asInteger ∧
    AppendsRefined d p d.asBoolean ∧
    AppendsRefined d p d.asArray ∧
    AppendsRefined d p d.asObject ∧
    AppendsRefined d p d.asNull ∧
    AppendsRefined d p (d.minLength v) ∧
    AppendsRefined d p (d.maxLength v) ∧
    AppendsRefined d p (d.minimum v) ∧
    AppendsRefined d p (d.anyOf o) ∧
    ∃ s, ((initialState.prop "a").asString.bind fun s => s.minLength (.num 2)) = .ok s ∧
      s.properties.length = 3 ∧
      s.valueOf.get "properties" = .obj [("a", .obj [("type", .str "string"),
        ("$id", .str "#properties/a"), ("minLength", .num 2)])] := by
  have hm : ∀ key v type, key ≠ "def" → AppendsRefined d p (setMeta d key v type) :=
    fun key v type hk => appendsRefined_setMeta d p key v type hp hdef hk
  refine ⟨hm _ _ _ (by decide), hm _ _ _ (by decide), hm _ _ _ (by decide), ?_,
    appendsRefined_ref d p v hp, hm _ _ _ (by decide), hm _ _ _ (by decide),
    hm _ _ _ (by decide), hm _ _ _ (by decide), hm _ _ _ (by decide), hm _ _ _ (by decide),
    hm _ _ _ (by decide), hm _ _ _ (by decide), ?_, ?_, ?_,
    appendsRefined_anyOf d o p hp hdef, _, rfl, rfl, rfl⟩
  · unfold Document.examples
    split
    · exact appendsRefined_error _ _ _
    · exact hm _ _ _ (by decide)
  · unfold Document.minLength
    split
    · exact appendsRefined_error _ _ _
    · exact hm _ _ _ (by decide)
  · unfold Document.maxLength
    split
    · exact appendsRefined_error _ _ _
    · exact hm _ _ _ (by decide)
  · unfold Document.minimum
    split
    · exact appendsRefined_error _ _ _
    · exact hm _ _ _ (by decide)

/-- C15, amended, at `prop('a').title('t')`: the call succeeds and its
`properties` are the entry of `prop('a')` followed by one entry named `'a'`. -/
theorem refinement_appends_witness :
    ∃ q, q.name = "a" ∧
      ({ initialState with properties :=
          [{ name := "a", attrs := [("type", .str "string"), ("$id", .str "#properties/a")] },
           { name := "a", attrs := [("type", .str "string"), ("title", .str "t"),
              ("$id", .str "#properties/a")] }] } : Document) =
        { initialState.prop "a" with properties := (initialState.prop "a").properties ++ [q] } :=
  (refinement_appends (initialState.prop "a") initialState
    { name := "a", attrs := [("type", .str "string"), ("$id", .str "#properties/a")] }
    (.str "t") "number" rfl rfl).2.1 _ rfl

/-- C16, at the failing input `prop('a').prop('b').prop('c').not()`: the
`properties` of the result are named `b`, `a`, `c`, so the two entries before
the last have changed places. -/
theorem not_reverses_earlier_entries :
    ∃ d, (((initialState.prop "a").prop "b").prop "c").not = .ok d ∧
      (((initialState.prop "a").prop "b").prop "c").properties.map (fun e => e.name)
        = ["a", "b", "c"] ∧
      d.properties.map (fun e => e.name) = ["b", "a", "c"] ∧
      d.properties =
        [{ name := "b", attrs := [("type", .str "string"), ("$id", .str "#properties/b")] },
         { name := "a", attrs := [("type", .str "string"), ("$id", .str "#properties/a")] },
         { name := "c", attrs := [("$id", .str "#properties/c"), ("not", .obj [])] }] :=
  ⟨_, rfl, rfl, rfl, rfl⟩

/-- After `prop('a').title('t').prop('b').not()` the entry of `prop('a')`
comes after its refinement by `title('t')`, and `valueOf()` reads `a` without
its title. -/
theorem not_puts_stale_entry_last :
    ∃ d, initialState.chain [.prop "a" (.plain []), .title (.str "t"), .prop "b" (.plain []),
        .not] = .ok d ∧
      d.properties =
        [{ name := "a", attrs := [("type", .str "string"), ("title", .str "t"),
            ("$id", .str "#properties/a")] },
         { name := "a", attrs := [("type", .str "string"), ("$id", .str "#properties/a")] },
         { name := "b", attrs := [("$id", .str "#properties/b"), ("not", .obj [])] }] ∧
      d.valueOf.get "properties" = .obj
        [("a", .obj [("type", .str "string"), ("$id", .str "#properties/a")]),
         ("b", .obj [("$id", .str "#properties/b"), ("not", .obj [])])] :=
  ⟨_, rfl, rfl, rfl⟩

/-- C17, at the failing input `prop('a', {defaults: 'x'}).title('t')`: the
last property of `prop('a', {defaults: 'x'})` holds `default = 'x'`, and the
last property after `title('t')` has the title and no `default`. -/
theorem title_drops_default :
    last (initialState.prop "a" (.plain [("defaults", .str "x")])).properties =
      some { name := "a", attrs := [("type", .str "string"), ("default", .str "x"),
        ("$id", .str "#properties/a")] } ∧
    ∃ d, (initialState.prop "a" (.plain [("defaults", .str "x")])).title (.str "t") = .ok d ∧
      last d.properties =
        some { name := "a", attrs := [("type", .str "string"), ("title", .str "t"),
          ("$id", .str "#properties/a")] } ∧
      (last d.properties).map (fun q => q.get "default") = some JsVal.undefined :=
  ⟨rfl, _, rfl, rfl, rfl⟩

/-- C18, at the failing input `prop('a').minLength(2).asNumber()`: every call
succeeds, and the last entry of `properties` holds `minLength = 2` with the
type `'number'`. -/
theorem minLength_survives_asNumber :
    ∃ d, initialState.chain [.prop "a" (.plain []), .minLength (.num 2), .asNumber] = .ok d ∧
      last d.properties =
        some { name := "a", attrs := [("type", .str "number"), ("$id", .str "#properties/a"),
          ("minLength", .num 2)] } ∧
      (last d.properties).map (fun q => (q.get "minLength", q.get "type")) =
        some (JsVal.num 2, JsVal.str "number") :=
  ⟨_, rfl, rfl, rfl⟩

/-! ## The invariant of the reachable documents -/

theorem Built.get_def {e : Entry} (h : Built e) : (e.get "def").truthy = false := by
  obtain ⟨target, name, a, rfl⟩ := h
  rw [buildEntry_get_def]; rfl

theorem Built.ref_only {e : Entry} (h : Built e) (hr : e.attrs.has "$ref" = true) :
    ∃ r, r.truthy = true ∧ e.attrs = [("$ref", r)] := by
  obtain ⟨target, name, a, rfl⟩ := h
  by_cases ha : (a.get "$ref").truthy = true
  · exact ⟨a.get "$ref", ha, by rw [buildEntry_of_ref _ _ _ ha]⟩
  · rw [buildEntry_attrs _ _ _ (by simpa using ha)] at hr
    simp [Obj.has_append, Obj.has_pick] at hr

theorem wellBuilt_initialState : WellBuilt initialState := by
  refine ⟨?_, ?_, ?_⟩ <;> intro x hx <;> cases hx

theorem wellBuilt_prop {d : Document} (h : WellBuilt d) (name : String) (props : PropArg) :
    WellBuilt (d.prop name props) := by
  obtain ⟨hp, hd, hr⟩ := h
  unfold Document.prop
  split
  · refine ⟨hp, ?_, hr⟩
    intro e he
    rcases List.mem_append.1 he with he | he
    · exact hd e he
    · rw [List.mem_singleton.1 he]; exact ⟨_, _, _, rfl⟩
  · refine ⟨?_, hd, ?_⟩
    · intro e he
      rcases List.mem_append.1 he with he | he
      · exact hp e he
      · rw [List.mem_singleton.1 he]; exact ⟨_, _, _, rfl⟩
    · intro n hn
      obtain ⟨e, he, hen⟩ := hr n hn
      exact ⟨e, List.mem_append_left _ he, hen⟩

theorem wellBuilt_fields {d : Document} (h : WellBuilt d) (fields : Obj) :
    WellBuilt { d with fields := fields } := h

theorem wellBuilt_setMeta {d d' : Document} (h : WellBuilt d) (key : String) (v : JsVal)
    (type : String) (hs : setMeta d key v type = .ok d') : WellBuilt d' := by
  unfold setMeta at hs
  split at hs
  · split at hs
    · cases hs
    · cases hs; exact wellBuilt_prop h _ _
  · cases hs; exact wellBuilt_fields h _

theorem wellBuilt_ref {d d' : Document} (h : WellBuilt d) (v : JsVal)
    (hs : d.ref v = .ok d') : WellBuilt d' := by
  unfold Document.ref at hs
  split at hs
  · cases hs; exact wellBuilt_prop h _ _
  · cases hs; exact wellBuilt_fields h _

theorem wellBuilt_anyOf {d d' : Document} (h : WellBuilt d) (o : Document)
    (hs : d.anyOf o = .ok d') : WellBuilt d' := by
  unfold Document.anyOf at hs
  split at hs
  · cases hs
  · cases hs; exact wellBuilt_prop h _ _

theorem mem_of_last {xs : List Entry} {p : Entry} (h : last xs = some p) : p ∈ xs := by
  obtain ⟨ys, rfl⟩ := exists_append_of_last h
  simp

theorem wellBuilt_required {d d' : Document} (h : WellBuilt d)
    (hs : d.required_ = .ok d') : WellBuilt d' := by
  obtain ⟨hp, hd, hr⟩ := h
  unfold Document.required_ at hs
  split at hs
  · cases hs
  · rename_i p hlast
    cases hs
    refine ⟨hp, hd, ?_⟩
    intro n hn
    rcases List.mem_append.1 hn with hn | hn
    · exact hr n hn
    · rw [List.mem_singleton.1 hn]; exact ⟨p, mem_of_last hlast, rfl⟩

/-- The `properties` after `not()` on a last property without definition
marker: the earlier entries in reverse order, then the new entry. -/
theorem not_properties (d : Document) (ys : List Entry) (p : Entry)
    (h : d.properties = ys ++ [p]) (hdef : (p.get "def").truthy = false) :
    d.not = .ok { d with properties := ys.reverse ++
      [buildEntry "properties" p.name ((p.attrs.erase "type").set "not" (.obj []))] } := by
  rw [not_of_last d ys p h, prop_plain_of_not_def]
  rw [Obj.get_set_of_ne _ _ (by decide), Obj.get_erase_of_ne _ (by decide)]
  exact hdef

theorem wellBuilt_not {d d' : Document} (h : WellBuilt d)
    (hs : d.not = .ok d') : WellBuilt d' := by
  obtain ⟨hp, hd, hr⟩ := h
  cases hl : last d.properties with
  | none =>
    rw [not_of_no_property d ((last_eq_none_iff _).1 hl)] at hs
    cases hs
  | some p =>
    obtain ⟨ys, hys⟩ := exists_append_of_last hl
    rw [not_properties d ys p hys (hp p (mem_of_last hl)).get_def] at hs
    cases hs
    refine ⟨?_, hd, ?_⟩
    · intro e he
      rcases List.mem_append.1 he with he | he
      · exact hp e (by rw [hys]; exact List.mem_append_left _ (List.mem_reverse.1 he))
      · rw [List.mem_singleton.1 he]; exact ⟨_, _, _, rfl⟩
    · intro n hn
      obtain ⟨e, he, hen⟩ := hr n hn
      rw [hys] at he
      rcases List.mem_append.1 he with he | he
      · exact ⟨e, List.mem_append_left _ (List.mem_reverse.2 he), hen⟩
      · rw [List.mem_singleton.1 he] at hen
        exact ⟨_, List.mem_append_right _ (List.mem_singleton.2 rfl),
          by rw [buildEntry_name]; exact hen⟩

theorem wellBuilt_call {d d' : Document} (h : WellBuilt d) (op : Op)
    (hs : d.call op = .ok d') : WellBuilt d' := by
  cases op with
  | id v => exact wellBuilt_setMeta h _ _ _ hs
  | title v => exact wellBuilt_setMeta h _ _ _ hs
  | description v => exact wellBuilt_setMeta h _ _ _ hs
  | examples v =>
    simp only [Document.call, Document.examples] at hs
    split at hs
    · cases hs
    · exact wellBuilt_setMeta h _ _ _ hs
  | ref v => exact wellBuilt_ref h v hs
  | definition name props =>
    simp only [Document.call, Document.definition] at hs
    cases hs; exact wellBuilt_prop h _ _
  | prop name props =>
    simp only [Document.call] at hs
    cases hs; exact wellBuilt_prop h _ _
  | not => exact wellBuilt_not h hs
  | anyOf o => exact wellBuilt_anyOf h o hs
  | required => exact wellBuilt_required h hs
  | asString => exact wellBuilt_setMeta h _ _ _ hs
  | minLength v =>
    simp only [Document.call, Document.minLength] at hs
    split at hs
    · cases hs
    · exact wellBuilt_setMeta h _ _ _ hs
  | maxLength v =>
    simp only [Document.call, Document.maxLength] at hs
    split at hs
    · cases hs
    · exact wellBuilt_setMeta h _ _ _ hs
  | asNumber => exact wellBuilt_setMeta h _ _ _ hs
  | minimum v =>
    simp only [Document.call, Document.minimum] at hs
    split at hs
    · cases hs
    · exact wellBuilt_setMeta h _ _ _ hs
  | asBoolean => exact wellBuilt_setMeta h _ _ _ hs
  | asInteger => exact wellBuilt_setMeta h _ _ _ hs
  | asArray => exact wellBuilt_setMeta h _ _ _ hs
  | asObject => exact wellBuilt_setMeta h _ _ _ hs
  | asNull => exact wellBuilt_setMeta h _ _ _ hs
  | as type => exact wellBuilt_setMeta h _ _ _ hs
  | if_ arguments => cases hs
  | then_ arguments => cases hs
  | else_ arguments => cases hs

theorem wellBuilt_of_reachable {d : Document} (h : Reachable d) : WellBuilt d := by
  induction h with
  | initial => exact wellBuilt_initialState
  | call op _ hs ih => exact wellBuilt_call ih op hs

theorem reachable_chain {d d' : Document} (h : Reachable d) (ops : List Op)
    (hs : d.chain ops = .ok d') : Reachable d' := by
  induction ops generalizing d with
  | nil => simp only [Document.chain] at hs; cases hs; exact h
  | cons op ops ih =>
    simp only [Document.chain] at hs
    split at hs
    · rename_i next hnext
      exact ih (Reachable.call op h hnext) hs
    · cases hs

/-! ## Lemmas on reference entries -/

theorem entry_eq_of_attrs (p : Entry) (a : Obj) (h : p.attrs = a) :
    ({ name := p.name, attrs := a } : Entry) = p := by
  cases p; cases h; rfl

theorem refEntry_type (p : Entry) (r : JsVal) (hp : p.attrs = [("$ref", r)]) (type : String) :
    p.get "type" ≠ JsVal.str type := by
  rw [Entry.get, hp]
  simp [Obj.get_cons, Obj.get_nil]

theorem refEntry_setMeta (d : Document) (p : Entry) (r : JsVal) (key : String) (v : JsVal)
    (type : String) (hd : last d.properties = some p) (hp : p.attrs = [("$ref", r)]) :
    setMeta d key v type = .error (.optionNotAccepted p.name type key) :=
  setMeta_of_mismatch d key v type p hd (refEntry_type p r hp type)

theorem refEntry_not (d : Document) (p : Entry) (r : JsVal)
    (hd : last d.properties = some p) (hp : p.attrs = [("$ref", r)]) (hr : r.truthy = true) :
    ∃ s, d.not = .ok s ∧ last s.properties = some p := by
  obtain ⟨ys, hys⟩ := exists_append_of_last hd
  have hdef : (p.get "def").truthy = false := by
    rw [Entry.get, hp]; simp [Obj.get_cons, Obj.get_nil, JsVal.truthy]
  have hbag : ((p.attrs.erase "type").set "not" (.obj [])).get "$ref" = r := by
    rw [Obj.get_set_of_ne _ _ (by decide), Obj.get_erase_of_ne _ (by decide), hp]
    simp [Obj.get_cons]
  refine ⟨_, not_properties d ys p hys hdef, ?_⟩
  rw [show last (ys.reverse ++ [buildEntry "properties" p.name
      ((p.attrs.erase "type").set "not" (.obj []))]) = some _ from last_append_singleton _ _,
    buildEntry_of_ref _ _ _ (by rw [hbag]; exact hr), hbag, entry_eq_of_attrs p _ hp]

theorem refEntry_anyOf (d o : Document) (p : Entry) (r : JsVal)
    (hd : last d.properties = some p) (hp : p.attrs = [("$ref", r)]) (hr : r.truthy = true) :
    ∃ s, d.anyOf o = .ok s ∧ last s.properties = some p := by
  have hdef : (p.get "def").truthy = false := by
    rw [Entry.get, hp]; simp [Obj.get_cons, Obj.get_nil, JsVal.truthy]
  have hnot : (p.get "not").truthy = false := by
    rw [Entry.get, hp]; simp [Obj.get_cons, Obj.get_nil, JsVal.truthy]
  have hs := anyOf_of_last d o p hd
  rw [hnot, if_neg (by decide)] at hs
  have hbag : ∀ values, (((p.attrs.erase "not").erase "type").set "anyOf" values).get "$ref"
      = r := by
    intro values
    rw [Obj.get_set_of_ne _ _ (by decide), Obj.get_erase_of_ne _ (by decide),
      Obj.get_erase_of_ne _ (by decide), hp]
    simp [Obj.get_cons]
  refine ⟨_, hs, ?_⟩
  rw [prop_plain_last d _ _ (by rw [anyOf_bag_def p "anyOf" _ (by decide)]; exact hdef),
    buildEntry_of_ref _ _ _ (by rw [hbag]; exact hr), hbag, entry_eq_of_attrs p _ hp]

/-! ## The claims C19 and C20 -/

/-- C19: in every document reachable from the initial state by a chain of
successful builder operations, every name in the `required` list is the name
of an entry of `properties`. -/
theorem required_names_are_properties (d : Document) (n : String)
    (h : Reachable d) (hn : n ∈ d.required) : ∃ e ∈ d.properties, e.name = n :=
  (wellBuilt_of_reachable h).2.2 n hn

/-- C19 at `prop('x', {type:'number'}).required()`: the name `'x'` in
`required` is the name of an entry of `properties`. -/
theorem required_names_are_properties_witness :
    ∃ e, e ∈ (initialState.prop "x" (.plain [("type", .str "number")])).properties ∧
      e.name = "x" :=
  required_names_are_properties
    { initialState.prop "x" (.plain [("type", .str "number")]) with required := ["x"] } "x"
    (reachable_chain Reachable.initial
      [.prop "x" (.plain [("type", .str "number")]), .required] rfl)
    (List.mem_singleton.2 rfl)

/-- C20: in every document reachable from the initial state by a chain of
successful builder operations, every entry of `properties` and of
`definitions` that carries `$ref` carries no other key besides its name: no
type, no `$id`, no validation attribute, no combinator.  In particular, on a
document whose last property `p` is a reference entry, `title`, `as*` and
`minLength` fail, and `not` and `anyOf` leave `p` as the last property. -/
theorem reference_entries_carry_nothing_else (d s o : Document) (e p : Entry) (r v : JsVal)
    (t : String)
    (h : Reachable d) (he : e ∈ d.properties ∨ e ∈ d.definitions)
    (href : e.attrs.has "$ref" = true)
    (hs : last s.properties = some p) (hp : p.attrs = [("$ref", r)]) (hr : r.truthy = true) :
    (∃ r', e.attrs = [("$ref", r')]) ∧
    (∀ k, k ≠ "$ref" → e.attrs.has k = false) ∧
    (∃ err, s.title v = .error err) ∧
    (∃ err, s.as t = .error err) ∧
    (∃ err, s.asString = .error err) ∧
    (∃ err, s.asNumber = .error err) ∧
    (∃ err, s.asInteger = .error err) ∧
    (∃ err, s.asBoolean = .error err) ∧
    (∃ err, s.asArray = .error err) ∧
    (∃ err, s.asObject = .error err) ∧
    (∃ err, s.asNull = .error err) ∧
    (∃ err, s.minLength v = .error err) ∧
    (∃ s', s.not = .ok s' ∧ last s'.properties = some p) ∧
    (∃ s', s.anyOf o = .ok s' ∧ last s'.properties = some p) := by
  have hb : Built e := by
    rcases he with he | he
    · exact (wellBuilt_of_reachable h).1 e he
    · exact (wellBuilt_of_reachable h).2.1 e he
  obtain ⟨r', -, hr'⟩ := hb.ref_only href
  have hm : ∀ key v type, ∃ err, setMeta s key v type = .error err :=
    fun key v type => ⟨_, refEntry_setMeta s p r key v type hs hp⟩
  refine ⟨⟨r', hr'⟩, ?_, hm _ _ _, hm _ _ _, hm _ _ _, hm _ _ _, hm _ _ _, hm _ _ _, hm _ _ _,
    hm _ _ _, hm _ _ _, ?_, refEntry_not s p r hs hp hr, refEntry_anyOf s o p r hs hp hr⟩
  · intro k hk
    rw [hr', Obj.has_cons, if_neg hk]
    rfl
  · unfold Document.minLength
    split
    · exact ⟨_, rfl⟩
    · exact hm _ _ _

/-- C20 at `prop('x', {$ref: '#/definitions/d', title: 't'})`: the entry is
`{name: 'x', $ref: '#/definitions/d'}`, and `not()` leaves it as it is. -/
theorem reference_entries_carry_nothing_else_witness :
    (∀ k, k ≠ "$ref" → Obj.has [("$ref", JsVal.str "#/definitions/d")] k = false) ∧
    ∃ s', (initialState.prop "x"
        (.plain [("$ref", .str "#/definitions/d"), ("title", .str "t")])).not = .ok s' ∧
      last s'.properties =
        some { name := "x", attrs := [("$ref", .str "#/definitions/d")] } :=
  have h := reference_entries_carry_nothing_else
    (initialState.prop "x" (.plain [("$ref", .str "#/definitions/d"), ("title", .str "t")]))
    (initialState.prop "x" (.plain [("$ref", .str "#/definitions/d"), ("title", .str "t")]))
    initialState
    { name := "x", attrs := [("$ref", .str "#/definitions/d")] }
    { name := "x", attrs := [("$ref", .str "#/definitions/d")] }
    (.str "#/definitions/d") (.str "t") "number"
    (Reachable.call (.prop "x" (.plain [("$ref", .str "#/definitions/d"), ("title", .str "t")]))
      Reachable.initial rfl)
    (.inl (List.mem_singleton.2 rfl)) rfl rfl rfl rfl
  ⟨h.2.1, h.2.2.2.2.2.2.2.2.2.2.2.2.1⟩

end FluentSchema
